import Mathlib

/-!
# Certificate operator: reconcile logic, shallow embedding

Embedding of `internal/controller/helper.go`, `internal/controller/certificate.go`,
`internal/controller/certificate_controller.go` and `api/v1/certificate_types.go`.

Conventions.
* Go `string` is a Lean `String` (a sequence of code points; the suffix test for the ASCII
  text "d" agrees with the byte-level one on valid UTF-8).
* `time.Duration` is an `Int` count of nanoseconds kept in the signed 64-bit range with an
  explicit wrap (`wrapInt64`) wherever Go arithmetic can overflow.
* `time.Time` is an `Int` count of nanoseconds since the zero time (January 1, year 1 UTC).
* A Go `error` is a `GoError`; a nil error is `none`.
* A Go map is an `Option` of an association list: `none` is the nil map.  Reading a nil map
  is defined, writing to it panics.
* Stateful code is a function `World → Outcome α` (`GoM α`): the world holds the two object
  stores, the trace of client calls, and the counters of the clock and random-source oracles.
  Library code that is not part of the repository and is not modelled (PEM, X.509, RSA, the
  floating-point step of the duration parser) is a field of `Env`.
* A function that takes a pointer and mutates the object returns the updated object next to
  its Go results.  Logging has no effect on the state and is left out.
* `strconv.Atoi`, `time.ParseDuration`, `controllerutil` and `meta.SetStatusCondition` are
  modelled from the Go and Kubernetes libraries.

The definitions come first; the theorems follow, with one theorem per claim `C1` to `C10`.
-/

namespace CertOperator

/-! ## Errors -/

/-- API status reason carried by an error (what `apierrors.IsNotFound` inspects). -/
inductive StatusReason where
  | Other
  | NotFound
  | AlreadyExists
  | Conflict
deriving DecidableEq, Repr

/-- Go error value: its `Error()` text and its API status reason. -/
structure GoError where
  msg : String
  reason : StatusReason
deriving DecidableEq, Repr

/-- Go `errors.New` of github.com/pkg/errors. -/
def errors.New (message : String) : GoError := ⟨message, StatusReason.Other⟩

/-- Go `errors.Wrap`: prefixes the message, the cause stays reachable. -/
def errors.Wrap (err : GoError) (message : String) : GoError :=
  ⟨message ++ ": " ++ err.msg, err.reason⟩

/-- Go `apierrors.IsNotFound`. -/
def apierrors.IsNotFound (err : GoError) : Bool := err.reason == StatusReason.NotFound

/-! ## Machine integers, durations, instants -/

/-- Two's-complement wrap of an integer into the signed 64-bit range. -/
def wrapInt64 (x : Int) : Int := (x + 2 ^ 63) % 2 ^ 64 - 2 ^ 63

def maxInt64 : Int := 2 ^ 63 - 1

def minInt64 : Int := -(2 ^ 63)

/-! A `time.Duration` is an `Int` (nanoseconds, kept in the int64 range); a `time.Time` is an
`Int` (nanoseconds since the zero time). -/

def time.Nanosecond : Int := 1

def time.Microsecond : Int := 1000

def time.Millisecond : Int := 1000000

def time.Second : Int := 1000000000

def time.Minute : Int := 60000000000

def time.Hour : Int := 3600000000000

/-- Go `Time.IsZero`. -/
def time.IsZero (t : Int) : Bool := t == 0

/-- Go `Time.Add` (the instants of this program are far from the saturation points). -/
def time.Add (t : Int) (d : Int) : Int := t + d

/-- Go `Time.Sub`: the difference, saturated to the int64 range of `Duration`. -/
def time.Sub (t u : Int) : Int :=
  if t - u > maxInt64 then maxInt64
  else if t - u < minInt64 then minInt64
  else t - u

/-! ## strings, strconv -/

/-- Go `strings.HasSuffix`. -/
def strings.HasSuffix (s suffix : String) : Bool := suffix.data.isSuffixOf s.data

/-- Go `strings.TrimSuffix`. -/
def strings.TrimSuffix (s suffix : String) : String :=
  if strings.HasSuffix s suffix then ⟨s.data.take (s.data.length - suffix.data.length)⟩ else s

/-- Simplified `strconv.Quote`: surrounds with double quotes (no escaping). -/
def quote (s : String) : String := "\"" ++ s ++ "\""

/-- The two causes of a `strconv.NumError`. -/
inductive NumErrKind where
  | Syntax
  | Range
deriving DecidableEq, Repr

def maxUint64 : Nat := 2 ^ 64 - 1

def isDigit (c : Char) : Bool := decide (48 ≤ c.toNat) && decide (c.toNat ≤ 57)

/-- The digit loop of `strconv.ParseUint(s, 10, 0)`: accumulates into `n`, stops with a range
error as soon as the 64-bit accumulator would overflow, and with a syntax error at the first
byte that is not a decimal digit. -/
def strconv.parseUintLoop : List Char → Nat → Except NumErrKind Nat
  | [], n => Except.ok n
  | c :: cs, n =>
    if isDigit c then
      if n ≥ maxUint64 / 10 + 1 then Except.error NumErrKind.Range
      else if n * 10 + (c.toNat - 48) > maxUint64 then Except.error NumErrKind.Range
      else strconv.parseUintLoop cs (n * 10 + (c.toNat - 48))
    else Except.error NumErrKind.Syntax

/-- Go `strconv.ParseUint(s, 10, 0)`. -/
def strconv.ParseUint (s : List Char) : Except NumErrKind Nat :=
  match s with
  | [] => Except.error NumErrKind.Syntax
  | _ :: _ => strconv.parseUintLoop s 0

/-- Go `strconv.ParseInt(s, 10, 0)` on a 64-bit platform. -/
def strconv.ParseInt (s : List Char) : Except NumErrKind Int :=
  match s with
  | [] => Except.error NumErrKind.Syntax
  | c :: rest =>
    let neg := c == '-'
    let body := if c == '+' || c == '-' then rest else c :: rest
    match strconv.ParseUint body with
    | Except.error NumErrKind.Syntax => Except.error NumErrKind.Syntax
    | Except.error NumErrKind.Range => Except.error NumErrKind.Range
    | Except.ok un =>
      if !neg && un ≥ 2 ^ 63 then Except.error NumErrKind.Range
      else if neg && un > 2 ^ 63 then Except.error NumErrKind.Range
      else Except.ok (if neg then -(un : Int) else (un : Int))

/-- The sign and range step of `strconv.ParseInt` on the unsigned part `body`. -/
def parseIntTail (neg : Bool) (body : List Char) : Except NumErrKind Int :=
  match strconv.ParseUint body with
  | Except.error NumErrKind.Syntax => Except.error NumErrKind.Syntax
  | Except.error NumErrKind.Range => Except.error NumErrKind.Range
  | Except.ok un =>
    if !neg && un ≥ 2 ^ 63 then Except.error NumErrKind.Range
    else if neg && un > 2 ^ 63 then Except.error NumErrKind.Range
    else Except.ok (if neg then -(un : Int) else (un : Int))

/-- Go `strconv.Atoi` (its fast path for short inputs computes the same result as
`ParseInt(s, 10, 0)`, which is what is embedded). -/
def strconv.Atoi (s : String) : Except GoError Int :=
  match strconv.ParseInt s.data with
  | Except.ok i => Except.ok i
  | Except.error NumErrKind.Syntax =>
    Except.error (errors.New ("strconv.Atoi: parsing " ++ quote s ++ ": invalid syntax"))
  | Except.error NumErrKind.Range =>
    Except.error (errors.New ("strconv.Atoi: parsing " ++ quote s ++ ": value out of range"))

/-! ## time.ParseDuration -/

/-- Go `time.unitMap`. -/
def time.unitMap : List (String × Nat) :=
  [("ns", 1), ("us", 1000), ("µs", 1000), ("μs", 1000), ("ms", 1000000),
   ("s", 1000000000), ("m", 60000000000), ("h", 3600000000000)]

/-- Go `time.leadingInt`: consumes the leading digits; `none` on overflow past 2^63. -/
def time.leadingInt : List Char → Nat → Option (Nat × List Char)
  | [], x => some (x, [])
  | c :: cs, x =>
    if isDigit c then
      if x > 2 ^ 63 / 10 then none
      else if x * 10 + (c.toNat - 48) > 2 ^ 63 then none
      else time.leadingInt cs (x * 10 + (c.toNat - 48))
    else some (x, c :: cs)

/-- Go `time.leadingFraction`: consumes the leading digits, stops accumulating on overflow.
The scale is the power of ten by which the accumulated digits are to be divided. -/
def time.leadingFraction : List Char → Nat → Nat → Bool → Nat × Nat × List Char
  | [], x, scale, _ => (x, scale, [])
  | c :: cs, x, scale, overflow =>
    if isDigit c then
      if overflow then time.leadingFraction cs x scale true
      else if x > (2 ^ 63 - 1) / 10 then time.leadingFraction cs x scale true
      else if x * 10 + (c.toNat - 48) > 2 ^ 63 then time.leadingFraction cs x scale true
      else time.leadingFraction cs (x * 10 + (c.toNat - 48)) (scale * 10) false
    else (x, scale, c :: cs)

def time.invalidDuration (orig : String) : GoError :=
  errors.New ("time: invalid duration " ++ quote orig)

/-- A byte that can continue a unit name: anything but a digit or a period. -/
def time.isUnitChar (c : Char) : Bool := !(c == '.' || isDigit c)

/-- One round of the loop of `time.ParseDuration`: a number, an optional fraction and a unit
are consumed from `s` and added to `d`.  `fracNs f scale unit` stands for the float64
computation `uint64(float64(f) * (float64(unit) / scale))`. -/
def time.parseTerm (fracNs : Nat → Nat → Nat → Nat) (orig : String) (s : List Char) (d : Nat) :
    Except GoError (Nat × List Char) :=
  match s with
  | [] => Except.error (time.invalidDuration orig)
  | c :: _ =>
    if !(c == '.' || isDigit c) then Except.error (time.invalidDuration orig)
    else
      match time.leadingInt s 0 with
      | none => Except.error (time.invalidDuration orig)
      | some (v, s1) =>
        let pre := s.length != s1.length
        let fr : Nat × Nat × List Char × Bool :=
          match s1 with
          | [] => (0, 1, s1, false)
          | c1 :: r1 =>
            if c1 == '.' then
              let q := time.leadingFraction r1 0 1 false
              (q.1, q.2.1, q.2.2, r1.length != q.2.2.length)
            else (0, 1, s1, false)
        let f := fr.1
        let scale := fr.2.1
        let s2 := fr.2.2.1
        let post := fr.2.2.2
        if !pre && !post then Except.error (time.invalidDuration orig)
        else
          let u := s2.takeWhile time.isUnitChar
          let s3 := s2.dropWhile time.isUnitChar
          if u.length == 0 then
            Except.error (errors.New ("time: missing unit in duration " ++ quote orig))
          else
            match time.unitMap.lookup (String.mk u) with
            | none =>
              Except.error (errors.New ("time: unknown unit " ++ quote (String.mk u)
                ++ " in duration " ++ quote orig))
            | some unit =>
              if v > 2 ^ 63 / unit then Except.error (time.invalidDuration orig)
              else
                let v1 := if f > 0 then (v * unit + fracNs f scale unit) % 2 ^ 64 else v * unit
                if f > 0 && v1 > 2 ^ 63 then Except.error (time.invalidDuration orig)
                else
                  let d1 := (d + v1) % 2 ^ 64
                  if d1 > 2 ^ 63 then Except.error (time.invalidDuration orig)
                  else Except.ok (d1, s3)

/-- The loop `for s != ""` of `time.ParseDuration`; `none` when the fuel runs out. -/
def time.parseLoop (fracNs : Nat → Nat → Nat → Nat) (orig : String) :
    Nat → List Char → Nat → Option (Except GoError Nat)
  | 0, _, _ => none
  | fuel + 1, s, d =>
    match s with
    | [] => some (Except.ok d)
    | _ :: _ =>
      match time.parseTerm fracNs orig s d with
      | Except.error e => some (Except.error e)
      | Except.ok (d1, rest) => time.parseLoop fracNs orig fuel rest d1

/-- Go `time.ParseDuration`. -/
def time.ParseDuration (fracNs : Nat → Nat → Nat → Nat) (s : String) : Except GoError Int :=
  let neg := s.data.head? == some '-'
  let body :=
    match s.data with
    | [] => []
    | c :: rest => if c == '-' || c == '+' then rest else c :: rest
  if body == ['0'] then Except.ok 0
  else if body == [] then Except.error (time.invalidDuration s)
  else
    match time.parseLoop fracNs s (body.length + 1) body 0 with
    | none => Except.error (errors.New "time: parse loop did not finish")
    | some (Except.error e) => Except.error e
    | some (Except.ok d) =>
      if neg then Except.ok (wrapInt64 (-(wrapInt64 d)))
      else if d > 2 ^ 63 - 1 then Except.error (time.invalidDuration s)
      else Except.ok (wrapInt64 d)

/-! ## helper.go -/

def day : String := "d"

def finalizerName : String := "certs.k8c.io/finalizer"

def defaultKeySize : Nat := 2048

def TypeCertificateIssued : String := "Issued"

def TypeReconcileError : String := "ReconciliationError"

def ReconcileFailed : String := "ReconcileFailed"

def TypeReconcileSuccess : String := "ReconciliationSuccess"

def ReconcileCompleted : String := "ReconcileCompleted"

def Success : String := "Success"

def CertificateIssued : String := "Successfully Issued Certificate"

def ReconcileCompletedMessage : String := "Reconcile Completed Successfully"

/-- Source `parseCustomDuration` (helper.go): a trailing "d" selects the day form, whose
prefix goes through `strconv.Atoi` and is scaled by two int64 multiplications; everything
else is handed to `time.ParseDuration`. -/
def parseCustomDuration (fracNs : Nat → Nat → Nat → Nat) (duration : String) :
    Except GoError Int :=
  if strings.HasSuffix duration day then
    let daysStr := strings.TrimSuffix duration day
    match strconv.Atoi daysStr with
    | Except.error err => Except.error err
    | Except.ok days => Except.ok (wrapInt64 (wrapInt64 (days * 24) * time.Hour))
  else time.ParseDuration fracNs duration

/-! ## Data model (api/v1/certificate_types.go and the Kubernetes types it uses) -/

abbrev Bytes := List UInt8

/-- Go map from string to bytes: `none` is the nil map. -/
abbrev ByteMap := Option (List (String × Bytes))

/-- Read `m[key]` with the comma-ok form: defined on the nil map. -/
def ByteMap.get (m : ByteMap) (key : String) : Option Bytes :=
  match m with
  | none => none
  | some l => l.lookup key

/-- Insert into an association list, replacing the entry of an existing key. -/
def assocSet {α β : Type} [BEq α] (key : α) (v : β) : List (α × β) → List (α × β)
  | [] => [(key, v)]
  | (k, x) :: rest => if k == key then (key, v) :: rest else (k, x) :: assocSet key v rest

/-- Remove the entry of a key from an association list. -/
def assocErase {α β : Type} [BEq α] (key : α) : List (α × β) → List (α × β)
  | [] => []
  | (k, x) :: rest => if k == key then rest else (k, x) :: assocErase key rest

/-- Write `m[key] = v`: `none` when the map is nil (Go panics). -/
def ByteMap.set (m : ByteMap) (key : String) (v : Bytes) : Option ByteMap :=
  match m with
  | none => none
  | some l => some (some (assocSet key v l))

structure NamespacedName where
  Namespace : String
  Name : String
deriving DecidableEq, Repr

structure OwnerReference where
  Kind : String
  Name : String
  Controller : Bool
deriving DecidableEq, Repr

structure ObjectMeta where
  Name : String
  Namespace : String
  Generation : Int
  DeletionTimestamp : Option Int
  Finalizers : List String
  OwnerReferences : List OwnerReference
deriving DecidableEq, Repr

/-- Kubernetes `v1.SecretReference`. -/
structure SecretReference where
  Name : String
  Namespace : String
deriving DecidableEq, Repr

structure CertificateSpec where
  DNSName : String
  Validity : String
  SecretRef : SecretReference
deriving DecidableEq, Repr

inductive ConditionStatus where
  | ConditionTrue
  | ConditionFalse
  | ConditionUnknown
deriving DecidableEq, Repr

structure Condition where
  Type' : String
  Status : ConditionStatus
  LastTransitionTime : Int
  Reason : String
  Message : String
  ObservedGeneration : Int
deriving DecidableEq, Repr

structure CertificateStatus where
  Conditions : List Condition
  SerialNumber : String
  NotBefore : Int
  NotAfter : Int
  Issuer : String
deriving DecidableEq, Repr

structure Certificate where
  ObjectMeta : ObjectMeta
  Spec : CertificateSpec
  Status : CertificateStatus
deriving DecidableEq, Repr

structure Secret where
  ObjectMeta : ObjectMeta
  Data : ByteMap
  Type' : String
deriving DecidableEq, Repr

def TLSCertKey : String := "tls.crt"

def TLSPrivateKeyKey : String := "tls.key"

def SecretTypeTLS : String := "kubernetes.io/tls"

def emptyMeta : ObjectMeta := ⟨"", "", 0, none, [], []⟩

/-- Go `&corev1.Secret{}`. -/
def emptySecret : Secret := ⟨emptyMeta, none, ""⟩

/-- Go `&certsv1.Certificate{}`. -/
def emptyCertificate : Certificate := ⟨emptyMeta, ⟨"", "", ⟨"", ""⟩⟩, ⟨[], "", 0, 0, ""⟩⟩

def Certificate.key (c : Certificate) : NamespacedName := ⟨c.ObjectMeta.Namespace, c.ObjectMeta.Name⟩

def Secret.key (s : Secret) : NamespacedName := ⟨s.ObjectMeta.Namespace, s.ObjectMeta.Name⟩

/-! ## Cryptographic material -/

structure PublicKey where
  N : Nat
  E : Nat
deriving DecidableEq, Repr

structure PrivateKey where
  PublicKey : PublicKey
  D : Nat
deriving DecidableEq, Repr

/-- Go `pkix.Name`, the fields this program uses. -/
structure pkix.Name where
  Organization : List String
  CommonName : String
deriving DecidableEq, Repr

/-- Go `x509.Certificate`, the fields this program uses. -/
structure x509.Certificate where
  SerialNumber : Nat
  Subject : pkix.Name
  Issuer : pkix.Name
  SignatureAlgorithm : Nat
  NotBefore : Int
  NotAfter : Int
  DNSNames : List String
  KeyUsage : Nat
  ExtKeyUsage : List Nat
  BasicConstraintsValid : Bool
deriving DecidableEq, Repr

def x509.SHA256WithRSA : Nat := 4

def x509.KeyUsageDigitalSignature : Nat := 1

def x509.KeyUsageKeyEncipherment : Nat := 4

def x509.ExtKeyUsageServerAuth : Nat := 1

/-- Go `pem.Block`. -/
structure pem.Block where
  Type' : String
  Bytes : Bytes
deriving DecidableEq, Repr

/-! ## The world and the environment -/

/-- One call of the controller-runtime client. -/
inductive Call where
  | GetSecret (key : NamespacedName)
  | CreateSecret (obj : Secret)
  | UpdateSecret (obj : Secret)
  | GetCertificate (key : NamespacedName)
  | UpdateCertificate (obj : Certificate)
  | UpdateCertificateStatus (obj : Certificate)
deriving DecidableEq, Repr

/-- State threaded through a reconcile pass: both object stores, the trace of client calls in
the order they were issued, and how often the clock and the random source were consulted. -/
structure World where
  secrets : List (NamespacedName × Secret)
  certificates : List (NamespacedName × Certificate)
  calls : List Call
  clockReads : Nat
  rngDraws : Nat
deriving DecidableEq, Repr

/-- What the program takes from outside: the clock, injected client failures (indexed by the
number of client calls issued so far), the random source, and the library functions that are
not modelled. -/
structure Env where
  clock : Nat → Int
  fault : Nat → Option GoError
  rsaGenerateKey : Nat → Except GoError PrivateKey
  randInt : Nat → Except GoError Nat
  x509CreateCertificate :
    x509.Certificate → x509.Certificate → PublicKey → PrivateKey → Except GoError Bytes
  x509MarshalPKCS1PrivateKey : PrivateKey → Bytes
  pemEncodeToMemory : pem.Block → Bytes
  pemDecode : Bytes → Option pem.Block
  x509ParseCertificate : Bytes → Except GoError x509.Certificate
  ownerReference : Certificate → Secret → Except GoError OwnerReference
  fracNs : Nat → Nat → Nat → Nat

/-- Result of running stateful code: a value, or a Go panic. -/
inductive Outcome (α : Type) where
  | done (a : α) (w : World)
  | panic (msg : String) (w : World)
deriving DecidableEq, Repr

/-- Stateful Go code. -/
def GoM (α : Type) : Type := World → Outcome α

def GoM.pure {α : Type} (a : α) : GoM α := fun w => Outcome.done a w

def GoM.bind {α β : Type} (m : GoM α) (f : α → GoM β) : GoM β := fun w =>
  match m w with
  | Outcome.done a w1 => f a w1
  | Outcome.panic msg w1 => Outcome.panic msg w1

instance : Monad GoM where
  pure := GoM.pure
  bind := GoM.bind

/-- Go `panic`. -/
def goPanic {α : Type} (msg : String) : GoM α := fun w => Outcome.panic msg w

/-- Go `time.Now()`: the next reading of the clock. -/
def time.Now (env : Env) : GoM Int := fun w =>
  Outcome.done (env.clock w.clockReads) { w with clockReads := w.clockReads + 1 }

/-- Go `time.Until`. -/
def time.Until (env : Env) (t : Int) : GoM Int := do
  let now ← time.Now env
  return time.Sub t now

/-- Go `rsa.GenerateKey(rand.Reader, defaultKeySize)`. -/
def rsa.GenerateKey (env : Env) : GoM (Except GoError PrivateKey) := fun w =>
  Outcome.done (env.rsaGenerateKey w.rngDraws) { w with rngDraws := w.rngDraws + 1 }

/-- Go `rand.Int(rand.Reader, 1 << 128)`. -/
def rand.Int (env : Env) : GoM (Except GoError Nat) := fun w =>
  Outcome.done
    (match env.randInt w.rngDraws with
     | Except.ok n => Except.ok (n % 2 ^ 128)
     | Except.error e => Except.error e)
    { w with rngDraws := w.rngDraws + 1 }

/-! ## The client (controller-runtime `client.Client`) -/

def notFoundError (resource name : String) : GoError :=
  ⟨resource ++ " " ++ quote name ++ " not found", StatusReason.NotFound⟩

def alreadyExistsError (resource name : String) : GoError :=
  ⟨resource ++ " " ++ quote name ++ " already exists", StatusReason.AlreadyExists⟩

/-- Client `Get` of a Secret: on success the stored object is copied over `obj` as a whole
(what the cache-backed reader of controller-runtime does), so a stored Secret without data
leaves `obj.Data` nil; on failure `obj` is left as it was. -/
def Client.GetSecret (env : Env) (key : NamespacedName) (obj : Secret) :
    GoM (Secret × Option GoError) := fun w =>
  let w1 := { w with calls := w.calls ++ [Call.GetSecret key] }
  match env.fault w.calls.length with
  | some e => Outcome.done (obj, some e) w1
  | none =>
    match w.secrets.lookup key with
    | none => Outcome.done (obj, some (notFoundError "secrets" key.Name)) w1
    | some s => Outcome.done (s, none) w1

/-- Client `Create` of a Secret. -/
def Client.CreateSecret (env : Env) (obj : Secret) : GoM (Option GoError) := fun w =>
  let w1 := { w with calls := w.calls ++ [Call.CreateSecret obj] }
  match env.fault w.calls.length with
  | some e => Outcome.done (some e) w1
  | none =>
    match w.secrets.lookup obj.key with
    | some _ => Outcome.done (some (alreadyExistsError "secrets" obj.ObjectMeta.Name)) w1
    | none => Outcome.done none { w1 with secrets := w.secrets ++ [(obj.key, obj)] }

/-- Client `Update` of a Secret. -/
def Client.UpdateSecret (env : Env) (obj : Secret) : GoM (Option GoError) := fun w =>
  let w1 := { w with calls := w.calls ++ [Call.UpdateSecret obj] }
  match env.fault w.calls.length with
  | some e => Outcome.done (some e) w1
  | none =>
    match w.secrets.lookup obj.key with
    | none => Outcome.done (some (notFoundError "secrets" obj.ObjectMeta.Name)) w1
    | some _ => Outcome.done none { w1 with secrets := assocSet obj.key obj w.secrets }

/-- Client `Get` of a Certificate. -/
def Client.GetCertificate (env : Env) (key : NamespacedName) (obj : Certificate) :
    GoM (Certificate × Option GoError) := fun w =>
  let w1 := { w with calls := w.calls ++ [Call.GetCertificate key] }
  match env.fault w.calls.length with
  | some e => Outcome.done (obj, some e) w1
  | none =>
    match w.certificates.lookup key with
    | none => Outcome.done (obj, some (notFoundError "certificates.certs.k8c.io" key.Name)) w1
    | some c => Outcome.done (c, none) w1

/-- Go `metav1.Time.IsZero` on a `*metav1.Time`: true on nil. -/
def metav1.IsZero (t : Option Int) : Bool :=
  match t with
  | none => true
  | some t => time.IsZero t

/-- Client `Update` of a Certificate.  The resource has a status subresource, so the stored
status is kept; the response replaces the caller's object.  A terminating object whose last
finalizer is gone leaves the store. -/
def Client.UpdateCertificate (env : Env) (obj : Certificate) :
    GoM (Certificate × Option GoError) := fun w =>
  let w1 := { w with calls := w.calls ++ [Call.UpdateCertificate obj] }
  match env.fault w.calls.length with
  | some e => Outcome.done (obj, some e) w1
  | none =>
    match w.certificates.lookup obj.key with
    | none => Outcome.done (obj, some (notFoundError "certificates.certs.k8c.io" obj.ObjectMeta.Name)) w1
    | some old =>
      let stored : Certificate := { obj with Status := old.Status }
      if !metav1.IsZero obj.ObjectMeta.DeletionTimestamp && obj.ObjectMeta.Finalizers.isEmpty then
        Outcome.done (stored, none) { w1 with certificates := assocErase obj.key w.certificates }
      else
        Outcome.done (stored, none) { w1 with certificates := assocSet obj.key stored w.certificates }

/-- Client `Status().Update` of a Certificate: only the status is stored. -/
def Client.UpdateCertificateStatus (env : Env) (obj : Certificate) :
    GoM (Certificate × Option GoError) := fun w =>
  let w1 := { w with calls := w.calls ++ [Call.UpdateCertificateStatus obj] }
  match env.fault w.calls.length with
  | some e => Outcome.done (obj, some e) w1
  | none =>
    match w.certificates.lookup obj.key with
    | none => Outcome.done (obj, some (notFoundError "certificates.certs.k8c.io" obj.ObjectMeta.Name)) w1
    | some old =>
      let stored : Certificate := { old with Status := obj.Status }
      Outcome.done (stored, none) { w1 with certificates := assocSet obj.key stored w.certificates }

/-! ## controllerutil and meta helpers -/

/-- Go `controllerutil.ContainsFinalizer`. -/
def controllerutil.ContainsFinalizer (o : Certificate) (finalizer : String) : Bool :=
  o.ObjectMeta.Finalizers.contains finalizer

/-- Go `controllerutil.AddFinalizer`: appends unless already present. -/
def controllerutil.AddFinalizer (o : Certificate) (finalizer : String) : Certificate :=
  if o.ObjectMeta.Finalizers.contains finalizer then o
  else { o with ObjectMeta := { o.ObjectMeta with Finalizers := o.ObjectMeta.Finalizers ++ [finalizer] } }

/-- Go `controllerutil.RemoveFinalizer`: drops every occurrence. -/
def controllerutil.RemoveFinalizer (o : Certificate) (finalizer : String) : Certificate :=
  { o with ObjectMeta :=
      { o.ObjectMeta with Finalizers := o.ObjectMeta.Finalizers.filter (fun e => !(e == finalizer)) } }

/-- Go `controllerutil.upsertOwnerRef`: replaces the reference to the same owner, else appends. -/
def controllerutil.upsertOwnerRef (ref : OwnerReference) : List OwnerReference → List OwnerReference
  | [] => [ref]
  | r :: rest =>
    if r.Kind == ref.Kind && r.Name == ref.Name then ref :: rest
    else r :: controllerutil.upsertOwnerRef ref rest

/-- Go `controllerutil.SetControllerReference`: validation and the construction of the owner
reference are left to the environment; on success the reference is upserted into the object. -/
def controllerutil.SetControllerReference (env : Env) (owner : Certificate) (obj : Secret) :
    Except GoError Secret :=
  match env.ownerReference owner obj with
  | Except.error e => Except.error e
  | Except.ok ref =>
    Except.ok { obj with ObjectMeta := { obj.ObjectMeta with
      OwnerReferences := controllerutil.upsertOwnerRef ref obj.ObjectMeta.OwnerReferences } }

/-- Go `meta.FindStatusCondition`: the first condition of the given type. -/
def meta.FindStatusCondition (conditions : List Condition) (conditionType : String) :
    Option Condition :=
  conditions.find? (fun c => c.Type' == conditionType)

/-- Replace the first condition of the given type. -/
def replaceCondition (conditionType : String) (c : Condition) : List Condition → List Condition
  | [] => []
  | x :: rest =>
    if x.Type' == conditionType then c :: rest else x :: replaceCondition conditionType c rest

/-- The status part of `meta.SetStatusCondition` on an existing condition: a changed status
is copied together with the transition time (the clock is read when the new one is zero). -/
def meta.transition (env : Env) (existing newCondition : Condition) : GoM Condition :=
  if existing.Status != newCondition.Status then
    if !time.IsZero newCondition.LastTransitionTime then
      pure { existing with Status := newCondition.Status,
                           LastTransitionTime := newCondition.LastTransitionTime }
    else do
      let t ← time.Now env
      pure { existing with Status := newCondition.Status, LastTransitionTime := t }
  else pure existing

/-- Go `meta.SetStatusCondition`. -/
def meta.SetStatusCondition (env : Env) (conditions : List Condition) (newCondition : Condition) :
    GoM (List Condition) :=
  match meta.FindStatusCondition conditions newCondition.Type' with
  | none =>
    if time.IsZero newCondition.LastTransitionTime then do
      let t ← time.Now env
      pure (conditions ++ [{ newCondition with LastTransitionTime := t }])
    else pure (conditions ++ [newCondition])
  | some existing => do
    let e1 ← meta.transition env existing newCondition
    pure (replaceCondition newCondition.Type'
      { e1 with Reason := newCondition.Reason, Message := newCondition.Message,
                ObservedGeneration := newCondition.ObservedGeneration } conditions)

/-! ## helper.go: the renewal check -/

/-- Source `isSecretDataEqual` (helper.go).  `false` means that renewal is required. -/
def isSecretDataEqual (env : Env) (config : Certificate) (secret : Secret) : GoM Bool :=
  match secret.Data.get TLSCertKey with
  | none => pure false
  | some certPEM =>
    match env.pemDecode certPEM with
    | none => pure false
    | some block =>
      match env.x509ParseCertificate block.Bytes with
      | Except.error _ => pure false
      | Except.ok x509Cert =>
        if x509Cert.Subject.CommonName != config.Spec.DNSName then pure false
        else do
          let renewalThreshold : Int := wrapInt64 (30 * 24 * time.Hour)
          let remaining ← time.Until env x509Cert.NotAfter
          pure (decide (remaining ≥ renewalThreshold))

/-! ## certificate.go -/

/-- Source `certificateTemplate` (certificate.go). -/
def certificateTemplate (env : Env) (config : Certificate) :
    GoM (Except GoError x509.Certificate) := do
  let serial ← rand.Int env
  match serial with
  | Except.error err => pure (Except.error (errors.Wrap err "Failed to generate serial number"))
  | Except.ok serialNumber =>
    let notBefore ← time.Now env
    match parseCustomDuration env.fracNs config.Spec.Validity with
    | Except.error err =>
      pure (Except.error (errors.Wrap err "Failed to parse validity duration"))
    | Except.ok validityDuration =>
      let notAfter := time.Add notBefore validityDuration
      pure (Except.ok
        { SerialNumber := serialNumber,
          Subject := { Organization := ["k8c self-sign certificate"],
                       CommonName := config.Spec.DNSName },
          Issuer := { Organization := [], CommonName := "" },
          SignatureAlgorithm := x509.SHA256WithRSA,
          NotBefore := notBefore,
          NotAfter := notAfter,
          DNSNames := [config.Spec.DNSName],
          KeyUsage := x509.KeyUsageKeyEncipherment ||| x509.KeyUsageDigitalSignature,
          ExtKeyUsage := [x509.ExtKeyUsageServerAuth],
          BasicConstraintsValid := true })

/-- Source `renewCertificate` (certificate.go).  The two assignments into `secret.Data`
panic when the map is nil. -/
def renewCertificate (env : Env) (config : Certificate) (secret : Secret) :
    GoM (Secret × Option GoError) := do
  let key ← rsa.GenerateKey env
  match key with
  | Except.error err => pure (secret, some (errors.Wrap err "Failed to generate private key"))
  | Except.ok privateKey =>
    let tmpl ← certificateTemplate env config
    match tmpl with
    | Except.error err =>
      pure (secret, some (errors.Wrap err "Failed to generate certificate template"))
    | Except.ok template =>
      match env.x509CreateCertificate template template privateKey.PublicKey privateKey with
      | Except.error err => pure (secret, some (errors.Wrap err "Failed to create certificate"))
      | Except.ok certDer =>
        let certPEM := env.pemEncodeToMemory { Type' := "CERTIFICATE", Bytes := certDer }
        let keyPEM := env.pemEncodeToMemory
          { Type' := "RSA PRIVATE KEY", Bytes := env.x509MarshalPKCS1PrivateKey privateKey }
        match secret.Data.set TLSCertKey certPEM with
        | none => goPanic "assignment to entry in nil map"
        | some data1 =>
          match data1.set TLSPrivateKeyKey keyPEM with
          | none => goPanic "assignment to entry in nil map"
          | some data2 =>
            let secret1 : Secret := { secret with Data := data2 }
            let err ← Client.UpdateSecret env secret1
            match err with
            | some err => pure (secret1, some (errors.Wrap err "Failed to update secret"))
            | none => pure (secret1, none)

/-- The key under which the Credential is looked up: the name of the secret reference and
the namespace of the request itself. -/
def secretKey (config : Certificate) : NamespacedName :=
  { Name := config.Spec.SecretRef.Name, Namespace := config.ObjectMeta.Namespace }

/-- Source `createOrUpdateSecret` (certificate.go). -/
def createOrUpdateSecret (env : Env) (config : Certificate) (secret : Secret) :
    GoM (Secret × Option GoError) := do
  let got ← Client.GetSecret env (secretKey config) secret
  match got with
  | (secret1, some err) =>
    if apierrors.IsNotFound err then do
      let cerr ← Client.CreateSecret env secret1
      match cerr with
      | some e => pure (secret1, some (errors.Wrap e "creating secret object failed"))
      | none => pure (secret1, none)
    else pure (secret1, some (errors.Wrap err "getting secret object failed"))
  | (secret1, none) => do
    let same ← isSecretDataEqual env config secret1
    if !same then do
      let renewed ← renewCertificate env config secret1
      match renewed with
      | (secret2, some e) => pure (secret2, some (errors.Wrap e "renewing secret object failed"))
      | (secret2, none) => pure (secret2, none)
    else pure (secret1, none)

/-- Source `certificateManager` (certificate.go). -/
def certificateManager (env : Env) (config : Certificate) (secret : Secret) :
    GoM (Secret × Option GoError) := do
  let got ← Client.GetSecret env (secretKey config) secret
  let secret1 := got.1
  let stop : Option GoError :=
    match got.2 with
    | none => none
    | some err => if !apierrors.IsNotFound err then some err else none
  match stop with
  | some err => pure (secret1, some err)
  | none =>
    let key ← rsa.GenerateKey env
    match key with
    | Except.error err => pure (secret1, some (errors.Wrap err "Failed to generate private key"))
    | Except.ok privateKey =>
      let tmpl ← certificateTemplate env config
      match tmpl with
      | Except.error err =>
        pure (secret1, some (errors.Wrap err "Failed to generate certificate template"))
      | Except.ok template =>
        match env.x509CreateCertificate template template privateKey.PublicKey privateKey with
        | Except.error err => pure (secret1, some (errors.Wrap err "Failed to create certificate"))
        | Except.ok certDer =>
          let certPEM := env.pemEncodeToMemory { Type' := "CERTIFICATE", Bytes := certDer }
          let keyPEM := env.pemEncodeToMemory
            { Type' := "RSA PRIVATE KEY", Bytes := env.x509MarshalPKCS1PrivateKey privateKey }
          let newSecret : Secret :=
            { ObjectMeta := { emptyMeta with Name := config.Spec.SecretRef.Name,
                                             Namespace := config.ObjectMeta.Namespace },
              Data := some [(TLSCertKey, certPEM), (TLSPrivateKeyKey, keyPEM)],
              Type' := SecretTypeTLS }
          let owned : Secret :=
            match controllerutil.SetControllerReference env config newSecret with
            | Except.ok s => s
            | Except.error _ => newSecret
          let res ← createOrUpdateSecret env config owned
          match res.2 with
          | some err => pure (secret1, some (errors.Wrap err "Failed to create or update secret"))
          | none => pure (secret1, none)

/-- Source `setConditionStatus` (certificate.go). -/
def setConditionStatus (env : Env) (config : Certificate) (status : ConditionStatus)
    (conditionType reason message : String) : GoM Certificate := do
  let now ← time.Now env
  let conditionDetails : Condition :=
    { Type' := conditionType, Status := status, LastTransitionTime := now, Reason := reason,
      Message := message, ObservedGeneration := config.ObjectMeta.Generation }
  let conds ← meta.SetStatusCondition env config.Status.Conditions conditionDetails
  pure { config with Status := { config.Status with Conditions := conds } }

/-- Source `setCertificateStatus` (certificate.go), the Status Reporter. -/
def setCertificateStatus (env : Env) (config : Certificate) (secret : Secret) :
    GoM (Certificate × Secret × Option GoError) := do
  let got ← Client.GetSecret env (secretKey config) secret
  match got with
  | (secret1, some err) => pure (config, secret1, some (errors.Wrap err "Failed to get existing secret"))
  | (secret1, none) =>
    let certPEM : Bytes := (secret1.Data.get TLSCertKey).getD []
    match env.pemDecode certPEM with
    | none => pure (config, secret1, some (errors.New "failed to decode certificate"))
    | some block =>
      match env.x509ParseCertificate block.Bytes with
      | Except.error err =>
        pure (config, secret1, some (errors.Wrap err "failed to parse certificate"))
      | Except.ok X509Cert =>
        let config1 : Certificate :=
          { config with Status :=
              { config.Status with SerialNumber := toString X509Cert.SerialNumber,
                                   Issuer := X509Cert.Issuer.CommonName,
                                   NotBefore := X509Cert.NotBefore,
                                   NotAfter := X509Cert.NotAfter } }
        let config2 ← setConditionStatus env config1 ConditionStatus.ConditionTrue
          TypeCertificateIssued Success CertificateIssued
        let config3 ← setConditionStatus env config2 ConditionStatus.ConditionTrue
          TypeReconcileSuccess ReconcileCompleted ReconcileCompletedMessage
        let upd ← Client.UpdateCertificateStatus env config3
        match upd.2 with
        | some updatedErr =>
          pure (upd.1, secret1, some (errors.Wrap updatedErr "Failed to update status"))
        | none => pure (upd.1, secret1, none)

/-! ## certificate_controller.go -/

/-- Source `HandleFinalizer` (certificate_controller.go): the updated request, `finished`
and the error. -/
def HandleFinalizer (env : Env) (config : Certificate) :
    GoM (Certificate × Bool × Option GoError) :=
  if metav1.IsZero config.ObjectMeta.DeletionTimestamp then
    if !controllerutil.ContainsFinalizer config finalizerName then do
      let upd ← Client.UpdateCertificate env (controllerutil.AddFinalizer config finalizerName)
      match upd.2 with
      | some err => pure (upd.1, false, some err)
      | none => pure (upd.1, false, none)
    else pure (config, false, none)
  else
    if controllerutil.ContainsFinalizer config finalizerName then do
      let upd ← Client.UpdateCertificate env (controllerutil.RemoveFinalizer config finalizerName)
      match upd.2 with
      | some err => pure (upd.1, false, some err)
      | none => pure (upd.1, true, none)
    else pure (config, true, none)

/-- Source `Reconcile` (certificate_controller.go): the returned error (the result value is
always the empty `ctrl.Result`). -/
def Reconcile (env : Env) (req : NamespacedName) : GoM (Option GoError) := do
  let got ← Client.GetCertificate env req emptyCertificate
  match got.2 with
  | some err => if apierrors.IsNotFound err then pure none else pure (some err)
  | none =>
    let fin ← HandleFinalizer env got.1
    match fin.2.2 with
    | some err => pure (some err)
    | none =>
      if fin.2.1 then pure none
      else do
        let config := fin.1
        let managed ← certificateManager env config emptySecret
        match managed.2 with
        | some err =>
          let config1 ← setConditionStatus env config ConditionStatus.ConditionTrue
            TypeReconcileError ReconcileFailed err.msg
          let _ ← Client.UpdateCertificateStatus env config1
          pure (some err)
        | none =>
          let _ ← setCertificateStatus env config managed.1
          pure none

/-! ## The same functions with named sub-steps (used in the proofs) -/

/-- The issuing steps shared by `certificateManager` and `renewCertificate`: key, template,
signature, PEM encoding.  Returns the certificate and key PEM. -/
def issueCertificate (env : Env) (config : Certificate) : GoM (Except GoError (Bytes × Bytes)) := do
  let key ← rsa.GenerateKey env
  match key with
  | Except.error err => pure (Except.error (errors.Wrap err "Failed to generate private key"))
  | Except.ok privateKey =>
    let tmpl ← certificateTemplate env config
    match tmpl with
    | Except.error err =>
      pure (Except.error (errors.Wrap err "Failed to generate certificate template"))
    | Except.ok template =>
      match env.x509CreateCertificate template template privateKey.PublicKey privateKey with
      | Except.error err => pure (Except.error (errors.Wrap err "Failed to create certificate"))
      | Except.ok certDer =>
        let certPEM := env.pemEncodeToMemory { Type' := "CERTIFICATE", Bytes := certDer }
        let keyPEM := env.pemEncodeToMemory
          { Type' := "RSA PRIVATE KEY", Bytes := env.x509MarshalPKCS1PrivateKey privateKey }
        pure (Except.ok (certPEM, keyPEM))

/-- The function `renewCertificate` with its issuing steps gathered in `issueCertificate`. -/
def renewCertificateSteps (env : Env) (config : Certificate) (secret : Secret) :
    GoM (Secret × Option GoError) := do
  let issued ← issueCertificate env config
  match issued with
  | Except.error err => pure (secret, some err)
  | Except.ok (certPEM, keyPEM) =>
    match secret.Data.set TLSCertKey certPEM with
    | none => goPanic "assignment to entry in nil map"
    | some data1 =>
      match data1.set TLSPrivateKeyKey keyPEM with
      | none => goPanic "assignment to entry in nil map"
      | some data2 =>
        let secret1 : Secret := { secret with Data := data2 }
        let err ← Client.UpdateSecret env secret1
        match err with
        | some err => pure (secret1, some (errors.Wrap err "Failed to update secret"))
        | none => pure (secret1, none)

/-- The function `certificateManager` with its issuing steps gathered in `issueCertificate`. -/
def certificateManagerSteps (env : Env) (config : Certificate) (secret : Secret) :
    GoM (Secret × Option GoError) := do
  let got ← Client.GetSecret env (secretKey config) secret
  let secret1 := got.1
  let stop : Option GoError :=
    match got.2 with
    | none => none
    | some err => if !apierrors.IsNotFound err then some err else none
  match stop with
  | some err => pure (secret1, some err)
  | none =>
    let issued ← issueCertificate env config
    match issued with
    | Except.error err => pure (secret1, some err)
    | Except.ok (certPEM, keyPEM) =>
      let newSecret : Secret :=
        { ObjectMeta := { emptyMeta with Name := config.Spec.SecretRef.Name,
                                         Namespace := config.ObjectMeta.Namespace },
          Data := some [(TLSCertKey, certPEM), (TLSPrivateKeyKey, keyPEM)],
          Type' := SecretTypeTLS }
      let owned : Secret :=
        match controllerutil.SetControllerReference env config newSecret with
        | Except.ok s => s
        | Except.error _ => newSecret
      let res ← createOrUpdateSecret env config owned
      match res.2 with
      | some err => pure (secret1, some (errors.Wrap err "Failed to create or update secret"))
      | none => pure (secret1, none)

/-- The body of `Reconcile` from "handling finalizer" on, for the request that was fetched. -/
def reconcileFetched (env : Env) (config0 : Certificate) : GoM (Option GoError) := do
  let fin ← HandleFinalizer env config0
  match fin.2.2 with
  | some err => pure (some err)
  | none =>
    if fin.2.1 then pure none
    else do
      let config := fin.1
      let managed ← certificateManager env config emptySecret
      match managed.2 with
      | some err =>
        let config1 ← setConditionStatus env config ConditionStatus.ConditionTrue
          TypeReconcileError ReconcileFailed err.msg
        let _ ← Client.UpdateCertificateStatus env config1
        pure (some err)
      | none =>
        let _ ← setCertificateStatus env config managed.1
        pure none

/-- The function `Reconcile` with the steps after the fetch gathered in `reconcileFetched`. -/
def ReconcileSteps (env : Env) (req : NamespacedName) : GoM (Option GoError) := do
  let got ← Client.GetCertificate env req emptyCertificate
  match got.2 with
  | some err => if apierrors.IsNotFound err then pure none else pure (some err)
  | none => reconcileFetched env got.1

/-! ## Reading of the texts that the duration claims speak about -/

/-- Value of a sequence of decimal digits, most significant first. -/
def digitsValue (cs : List Char) : Nat := cs.foldl (fun a c => a * 10 + (c.toNat - 48)) 0

/-- A non-empty sequence of decimal digits. -/
def isDecimalDigits (cs : List Char) : Bool := !cs.isEmpty && cs.all isDigit

/-- The integer that a text denotes when it is an optional sign followed by decimal digits. -/
def intTextValue (cs : List Char) : Option Int :=
  match cs with
  | [] => none
  | c :: rest =>
    if c = '+' then (if isDecimalDigits rest then some (digitsValue rest : Int) else none)
    else if c = '-' then (if isDecimalDigits rest then some (-(digitsValue rest : Int)) else none)
    else if isDecimalDigits (c :: rest) then some (digitsValue (c :: rest) : Int) else none

/-- The text is a bare day count (an integer written in decimal) followed by "d". -/
def isDayCountText (text : String) : Prop :=
  ∃ p : String, text = p ++ "d" ∧ ∃ v, intTextValue p.data = some v

/-- The text is a day count that fits a signed 64-bit integer, followed by "d". -/
def isInt64DayCountText (text : String) : Prop :=
  ∃ p : String, text = p ++ "d" ∧ ∃ v, intTextValue p.data = some v ∧ -(2 ^ 63) ≤ v ∧ v < 2 ^ 63

/-- The text is a literal that the standard duration parser accepts. -/
def isStandardDuration (fracNs : Nat → Nat → Nat → Nat) (text : String) : Prop :=
  ∃ d, time.ParseDuration fracNs text = Except.ok d

/-- The duration parser rejects the text. -/
def parseFails (fracNs : Nat → Nat → Nat → Nat) (text : String) : Prop :=
  ∃ e, parseCustomDuration fracNs text = Except.error e

/-! ## Trace predicates used to state properties of a pass -/

/-- The world in which a run ended. -/
def Outcome.world {α : Type} : Outcome α → World
  | Outcome.done _ w => w
  | Outcome.panic _ w => w

/-- The name and namespace that a client call on the credential store addresses. -/
def Call.secretKey : Call → Option NamespacedName
  | Call.GetSecret key => some key
  | Call.CreateSecret obj => some obj.key
  | Call.UpdateSecret obj => some obj.key
  | _ => none

/-- Whether a client call creates or updates a Credential. -/
def Call.isSecretWrite : Call → Bool
  | Call.CreateSecret _ => true
  | Call.UpdateSecret _ => true
  | _ => false

/-- Every stored Credential sits under its own name and namespace. -/
def WellKeyed (w : World) : Prop := ∀ k s, (k, s) ∈ w.secrets → s.key = k

/-- The run from `w` to `w1` only appended client calls, each of which satisfies `P`. -/
def Appends (P : Call → Prop) (w w1 : World) : Prop :=
  ∃ l, w1.calls = w.calls ++ l ∧ ∀ c ∈ l, P c

/-- An invariant of the credential store together with a property of client calls. -/
structure Frame where
  I : World → Prop
  P : Call → Prop
  stable : ∀ w w1 : World, w1.secrets = w.secrets → I w → I w1

/-- Started in a world satisfying the invariant, `m` ends (also when it panics) in a world
satisfying it, has only appended calls satisfying the call property, and a returned value
satisfies `Q`. -/
def Run {α : Type} (F : Frame) (m : GoM α) (Q : α → Prop) : Prop :=
  ∀ w, F.I w → F.I (m w).world ∧ Appends F.P w (m w).world ∧
    ∀ a w1, m w = Outcome.done a w1 → Q a

/-- Total version of `Run`: started in a world satisfying the invariant, `m` returns a value
satisfying `Q` in a world satisfying the invariant, having only appended calls that satisfy
the call property. -/
def RunT {α : Type} (F : Frame) (m : GoM α) (Q : α → Prop) : Prop :=
  ∀ w, F.I w → ∃ a w1, m w = Outcome.done a w1 ∧ F.I w1 ∧ Appends F.P w w1 ∧ Q a

/-- The computation always returns, and leaves both stores and the call trace as they were. -/
def Silent {α : Type} (m : GoM α) : Prop :=
  ∀ w, ∃ a w1, m w = Outcome.done a w1 ∧ w1.secrets = w.secrets ∧
    w1.certificates = w.certificates ∧ w1.calls = w.calls

/-- Frame of the calls addressed to one name and namespace, over well-keyed stores. -/
def keyedFrame (key : NamespacedName) : Frame :=
  { I := WellKeyed,
    P := fun c => ∀ k, c.secretKey = some k → k = key,
    stable := fun w w1 h hw k s hm => hw k s (h ▸ hm) }

/-- Frame of the runs that leave the credential store equal to `S` and write nothing to it. -/
def readOnlyFrame (S : List (NamespacedName × Secret)) : Frame :=
  { I := fun w => w.secrets = S,
    P := fun c => c.isSecretWrite = false,
    stable := fun _ _ h hw => h.trans hw }

/-! ## A concrete environment

A small executable stand-in for the libraries that `Env` abstracts, used to run the model on
concrete inputs.  Its certificate encoding keeps the common name and the expiry only. -/

deriving instance DecidableEq for Except

/-- Big-endian base-256 digits of a number (at most `fuel` of them). -/
def natToBytes : Nat → Nat → Bytes
  | 0, _ => []
  | fuel + 1, n => if n < 256 then [n.toUInt8] else natToBytes fuel (n / 256) ++ [(n % 256).toUInt8]

def bytesToNat (b : Bytes) : Nat := b.foldl (fun acc x => acc * 256 + x.toNat) 0

/-- Stand-in for the DER encoding: a tag, the length and bytes of the common name, then the
expiry. -/
def demoSign (template : x509.Certificate) : Bytes :=
  let cn : Bytes := template.Subject.CommonName.data.map (fun c => c.toNat.toUInt8)
  48 :: cn.length.toUInt8 :: (cn ++ natToBytes 16 template.NotAfter.toNat)

def demoCreateCertificate (template _parent : x509.Certificate) (_pub : PublicKey)
    (_priv : PrivateKey) : Except GoError Bytes :=
  Except.ok (demoSign template)

def demoParseCertificate (der : Bytes) : Except GoError x509.Certificate :=
  match der with
  | 48 :: n :: rest =>
    Except.ok
      { SerialNumber := 1,
        Subject := { Organization := ["k8c self-sign certificate"],
                     CommonName := String.mk ((rest.take n.toNat).map (fun b => Char.ofNat b.toNat)) },
        Issuer := { Organization := ["k8c self-sign certificate"],
                    CommonName := String.mk ((rest.take n.toNat).map (fun b => Char.ofNat b.toNat)) },
        SignatureAlgorithm := x509.SHA256WithRSA,
        NotBefore := 0,
        NotAfter := (bytesToNat (rest.drop n.toNat) : Int),
        DNSNames := [String.mk ((rest.take n.toNat).map (fun b => Char.ofNat b.toNat))],
        KeyUsage := 5,
        ExtKeyUsage := [x509.ExtKeyUsageServerAuth],
        BasicConstraintsValid := true }
  | _ => Except.error (errors.New "x509: malformed certificate")

def demoDecode (b : Bytes) : Option pem.Block :=
  match b with
  | 45 :: rest => some { Type' := "CERTIFICATE", Bytes := rest }
  | _ => none

/-- Exact-arithmetic stand-in for the floating-point step of the duration parser. -/
def demoFrac : Nat → Nat → Nat → Nat := fun f scale unit => f * unit / scale

/-- Environment with a clock fixed at `now`, no injected client failure, and the stand-in
libraries above. -/
def demoEnv (now : Int) : Env :=
  { clock := fun _ => now,
    fault := fun _ => none,
    rsaGenerateKey := fun k => Except.ok { PublicKey := { N := 3233 + k, E := 17 }, D := 413 },
    randInt := fun k => Except.ok (k + 1),
    x509CreateCertificate := demoCreateCertificate,
    x509MarshalPKCS1PrivateKey := fun key => [key.D.toUInt8],
    pemEncodeToMemory := fun blk => 45 :: blk.Bytes,
    pemDecode := demoDecode,
    x509ParseCertificate := demoParseCertificate,
    ownerReference := fun owner _ =>
      Except.ok { Kind := "Certificate", Name := owner.ObjectMeta.Name, Controller := true },
    fracNs := demoFrac }

def demoRequest : Certificate :=
  { ObjectMeta := { emptyMeta with Name := "web", Namespace := "team-a" },
    Spec := { DNSName := "a.example.com", Validity := "90d",
              SecretRef := { Name := "web-tls", Namespace := "team-b" } },
    Status := { Conditions := [], SerialNumber := "", NotBefore := 0, NotAfter := 0, Issuer := "" } }

def emptyWorld : World :=
  { secrets := [], certificates := [], calls := [], clockReads := 0, rngDraws := 0 }

/-- A world that holds the request and no Credential. -/
def demoWorld0 : World := { emptyWorld with certificates := [(demoRequest.key, demoRequest)] }

/-- The instant of the first pass in the examples. -/
def demoNow : Int := 63800000000000000000

/-- The world after one pass over `demoWorld0`. -/
def demoWorld1 : World := (Reconcile (demoEnv demoNow) demoRequest.key demoWorld0).world

/-- A Credential that exists without any data (its data map is nil). -/
def demoBareSecret : Secret :=
  { emptySecret with ObjectMeta := { emptyMeta with Name := "web-tls", Namespace := "team-a" } }

/-- A world that holds the request and the Credential without data. -/
def demoWorldBare : World :=
  { demoWorld0 with secrets := [(secretKey demoRequest, demoBareSecret)] }

/-- A certificate for "a.example.com" that expires at `demoNow` plus 90 days, in the stand-in
encoding, and the Credential holding it. -/
def demoDer : Bytes := demoSign
  { SerialNumber := 1, Subject := { Organization := [], CommonName := "a.example.com" },
    Issuer := { Organization := [], CommonName := "" }, SignatureAlgorithm := 4,
    NotBefore := demoNow, NotAfter := demoNow + 90 * (24 * time.Hour), DNSNames := [],
    KeyUsage := 5, ExtKeyUsage := [], BasicConstraintsValid := true }

def demoSecret : Secret :=
  { demoBareSecret with Data := some [(TLSCertKey, 45 :: demoDer), (TLSPrivateKeyKey, [45, 157])] }

/-- The certificate that `demoDer` parses to. -/
def demoCert : x509.Certificate :=
  { SerialNumber := 1,
    Subject := { Organization := ["k8c self-sign certificate"], CommonName := "a.example.com" },
    Issuer := { Organization := ["k8c self-sign certificate"], CommonName := "a.example.com" },
    SignatureAlgorithm := x509.SHA256WithRSA,
    NotBefore := 0,
    NotAfter := demoNow + 90 * (24 * time.Hour),
    DNSNames := ["a.example.com"],
    KeyUsage := 5,
    ExtKeyUsage := [x509.ExtKeyUsageServerAuth],
    BasicConstraintsValid := true }

/-- The Credential and the request that `demoWorld1` holds. -/
def demoCreated : Secret :=
  (demoWorld1.secrets.lookup (secretKey demoRequest)).getD emptySecret

def demoStored : Certificate :=
  (demoWorld1.certificates.lookup demoRequest.key).getD emptyCertificate

/-- The request of the examples with a validity that does not parse, the world that holds
it, and the worlds after its fetch and after the finalizer gate. -/
def demoBadRequest : Certificate :=
  { demoRequest with Spec := { demoRequest.Spec with Validity := "soon" } }

def demoWorldBad : World :=
  { emptyWorld with certificates := [(demoRequest.key, demoBadRequest)] }

def demoWorldBadFetched : World :=
  (Client.GetCertificate (demoEnv demoNow) demoRequest.key emptyCertificate demoWorldBad).world

def demoWorldBadGated : World :=
  (HandleFinalizer (demoEnv demoNow) demoBadRequest demoWorldBadFetched).world

def demoWorldBadManaged : World :=
  (certificateManager (demoEnv demoNow)
    (controllerutil.AddFinalizer demoBadRequest finalizerName) emptySecret
    demoWorldBadGated).world

/-- The error that the issue step returns for `demoBadRequest`. -/
def demoBadError : GoError :=
  errors.Wrap (errors.Wrap (time.invalidDuration "soon") "Failed to parse validity duration")
    "Failed to generate certificate template"

/-! # Theorems -/

/-! ## The functions and their versions with named sub-steps agree -/

theorem goM_bind_eq {α β : Type} (m : GoM α) (f : α → GoM β) (w : World) :
    (m >>= f) w = match m w with
      | Outcome.done a w1 => f a w1
      | Outcome.panic msg w1 => Outcome.panic msg w1 := rfl

theorem goM_pure_eq {α : Type} (a : α) (w : World) : (pure a : GoM α) w = Outcome.done a w := rfl

theorem renewCertificate_steps (env : Env) (config : Certificate) (secret : Secret) :
    renewCertificate env config secret = renewCertificateSteps env config secret := by
  funext w
  simp only [renewCertificate, renewCertificateSteps, issueCertificate, goM_bind_eq,
    rsa.GenerateKey]
  cases env.rsaGenerateKey w.rngDraws with
  | error e => rfl
  | ok priv =>
    simp only [goM_bind_eq]
    cases certificateTemplate env config
        { w with rngDraws := w.rngDraws + 1 } with
    | panic msg w1 => rfl
    | done tmpl w1 =>
      cases tmpl with
      | error e => rfl
      | ok template =>
        simp only []
        cases env.x509CreateCertificate template template priv.PublicKey priv with
        | error e => rfl
        | ok der => rfl

theorem certificateManager_steps (env : Env) (config : Certificate) (secret : Secret) :
    certificateManager env config secret = certificateManagerSteps env config secret := by
  funext w
  simp only [certificateManager, certificateManagerSteps, issueCertificate, goM_bind_eq]
  cases Client.GetSecret env (secretKey config) secret w with
  | panic msg w1 => rfl
  | done got w1 =>
    simp only []
    generalize (match got.2 with
      | none => (none : Option GoError)
      | some err => if (!apierrors.IsNotFound err) = true then some err else none) = stop
    cases stop with
    | some err => rfl
    | none =>
      simp only [goM_bind_eq, rsa.GenerateKey]
      cases env.rsaGenerateKey w1.rngDraws with
      | error e => rfl
      | ok priv =>
        simp only [goM_bind_eq]
        cases certificateTemplate env config
            { w1 with rngDraws := w1.rngDraws + 1 } with
        | panic msg w2 => rfl
        | done tmpl w2 =>
          cases tmpl with
          | error e => rfl
          | ok template =>
            simp only []
            cases env.x509CreateCertificate template template priv.PublicKey priv with
            | error e => rfl
            | ok der => rfl

theorem Reconcile_steps (env : Env) (req : NamespacedName) :
    Reconcile env req = ReconcileSteps env req := rfl

/-! ## Renewal policy -/

theorem renewalThreshold_eq : wrapInt64 (30 * 24 * time.Hour) = 2592000000000000 := by decide

theorem time_Sub_ge_iff (t u thr : Int) (hlo : -(2 ^ 63) < thr) (hhi : thr ≤ 2 ^ 63 - 1) :
    thr ≤ time.Sub t u ↔ thr ≤ t - u := by
  unfold time.Sub
  simp only [maxInt64, minInt64]
  split_ifs with h1 h2
  · constructor
    · intro _; omega
    · intro _; exact hhi
  · constructor
    · intro h; omega
    · intro h; omega
  · rfl

/-- Evaluation of the renewal check on a stored certificate that decodes and parses. -/
theorem isSecretDataEqual_eval (env : Env) (config : Certificate) (secret : Secret)
    (w : World) (certPEM : Bytes) (block : pem.Block) (cert : x509.Certificate)
    (hentry : secret.Data.get TLSCertKey = some certPEM)
    (hpem : env.pemDecode certPEM = some block)
    (hparse : env.x509ParseCertificate block.Bytes = Except.ok cert) :
    ∃ same w1, isSecretDataEqual env config secret w = Outcome.done same w1 ∧
      w1.secrets = w.secrets ∧ w1.certificates = w.certificates ∧ w1.calls = w.calls ∧
      (same = false ↔ (cert.Subject.CommonName ≠ config.Spec.DNSName ∨
          cert.NotAfter - env.clock w.clockReads < 30 * (24 * time.Hour))) := by
  unfold isSecretDataEqual
  simp only [hentry, hpem, hparse]
  by_cases hcn : cert.Subject.CommonName = config.Spec.DNSName
  · simp only [hcn, bne_self_eq_false, Bool.false_eq_true, if_false, ne_eq, not_true_eq_false, false_or]
    refine ⟨_, _, rfl, rfl, rfl, rfl, ?_⟩
    simp only [time.Now, decide_eq_false_iff_not, renewalThreshold_eq]
    have h := time_Sub_ge_iff cert.NotAfter (env.clock w.clockReads) 2592000000000000 (by decide) (by decide)
    simp only [time.Hour, ge_iff_le, h]
    omega
  · refine ⟨false, w, ?_, rfl, rfl, rfl, ?_⟩
    · have : (cert.Subject.CommonName != config.Spec.DNSName) = true := by
        simp [bne_iff_ne, hcn]
      simp only [this, if_true]
      rfl
    · simp [hcn]

/-- C1: on a stored certificate that decodes and parses, the renewal check requires renewal
(returns false) exactly when the subject common name differs from the requested DNS name
or `notAfter - now` is below 30 days; `now` is the clock reading the check takes.  With a
matching name, exactly 30 days and 31 days left need no renewal and 29 days do; a name
mismatch needs renewal whatever the expiry. -/
theorem isSecretDataEqual_renewal_iff (env : Env) (config : Certificate) (secret : Secret)
    (w : World) (certPEM : Bytes) (block : pem.Block) (cert : x509.Certificate)
    (hentry : secret.Data.get TLSCertKey = some certPEM)
    (hpem : env.pemDecode certPEM = some block)
    (hparse : env.x509ParseCertificate block.Bytes = Except.ok cert) :
    ∃ same w1, isSecretDataEqual env config secret w = Outcome.done same w1 ∧
      (same = false ↔ (cert.Subject.CommonName ≠ config.Spec.DNSName ∨
          cert.NotAfter - env.clock w.clockReads < 30 * (24 * time.Hour))) ∧
      (cert.Subject.CommonName = config.Spec.DNSName →
        cert.NotAfter - env.clock w.clockReads = 30 * (24 * time.Hour) → same = true) ∧
      (cert.Subject.CommonName = config.Spec.DNSName →
        cert.NotAfter - env.clock w.clockReads = 29 * (24 * time.Hour) → same = false) ∧
      (cert.Subject.CommonName = config.Spec.DNSName →
        cert.NotAfter - env.clock w.clockReads = 31 * (24 * time.Hour) → same = true) ∧
      (cert.Subject.CommonName ≠ config.Spec.DNSName → same = false) := by
  obtain ⟨same, w1, hrun, _, _, _, hiff⟩ :=
    isSecretDataEqual_eval env config secret w certPEM block cert hentry hpem hparse
  refine ⟨same, w1, hrun, hiff, ?_, ?_, ?_, ?_⟩
  · intro hcn hrem
    cases hs : same with
    | true => rfl
    | false =>
      rcases hiff.mp hs with h | h
      · exact absurd hcn h
      · rw [hrem] at h
        simp [time.Hour] at h
  · intro hcn hrem
    apply hiff.mpr
    right
    rw [hrem]
    simp [time.Hour]
  · intro hcn hrem
    cases hs : same with
    | true => rfl
    | false =>
      rcases hiff.mp hs with h | h
      · exact absurd hcn h
      · rw [hrem] at h
        simp [time.Hour] at h
  · intro hcn
    exact hiff.mpr (Or.inl hcn)

/-! ## Finalizer gate -/

theorem AddFinalizer_key (o : Certificate) (f : String) :
    (controllerutil.AddFinalizer o f).key = o.key := by
  unfold controllerutil.AddFinalizer Certificate.key
  split <;> rfl

theorem RemoveFinalizer_key (o : Certificate) (f : String) :
    (controllerutil.RemoveFinalizer o f).key = o.key := rfl

theorem UpdateCertificate_ok (env : Env) (obj old : Certificate) (w : World)
    (hstored : w.certificates.lookup obj.key = some old)
    (hfault : env.fault w.calls.length = none) :
    ∃ w1, Client.UpdateCertificate env obj w = Outcome.done ({ obj with Status := old.Status }, none) w1 ∧
      w1.calls = w.calls ++ [Call.UpdateCertificate obj] ∧ w1.secrets = w.secrets ∧
      w1.rngDraws = w.rngDraws ∧ w1.clockReads = w.clockReads := by
  unfold Client.UpdateCertificate
  simp only [hfault, hstored]
  split <;> exact ⟨_, rfl, rfl, rfl, rfl, rfl⟩

/-- C2: with the request stored and the store update succeeding, the finalizer gate returns
`finished = true` exactly when the deletion timestamp is non-zero; afterwards the token is in
the finalizer list exactly when the request is not terminating; and a store update of the
request is issued exactly when the presence of the token changed (the update then carries the
new finalizer list; otherwise the world and the request are untouched). -/
theorem HandleFinalizer_gate (env : Env) (config old : Certificate) (w : World)
    (hstored : w.certificates.lookup config.key = some old)
    (hfault : env.fault w.calls.length = none) :
    ∃ config1 finished w1,
      HandleFinalizer env config w = Outcome.done (config1, finished, none) w1 ∧
      (finished = true ↔ metav1.IsZero config.ObjectMeta.DeletionTimestamp = false) ∧
      (finalizerName ∈ config1.ObjectMeta.Finalizers ↔
        metav1.IsZero config.ObjectMeta.DeletionTimestamp = true) ∧
      ((∃ obj, w1.calls = w.calls ++ [Call.UpdateCertificate obj]) ↔
        ¬ (finalizerName ∈ config.ObjectMeta.Finalizers ↔
            finalizerName ∈ config1.ObjectMeta.Finalizers)) ∧
      ((finalizerName ∈ config.ObjectMeta.Finalizers ↔
            finalizerName ∈ config1.ObjectMeta.Finalizers) → w1 = w ∧ config1 = config) ∧
      (¬ (finalizerName ∈ config.ObjectMeta.Finalizers ↔
            finalizerName ∈ config1.ObjectMeta.Finalizers) →
        ∃ obj, w1.calls = w.calls ++ [Call.UpdateCertificate obj] ∧
          obj.ObjectMeta.Finalizers = config1.ObjectMeta.Finalizers) := by
  unfold HandleFinalizer
  by_cases hz : metav1.IsZero config.ObjectMeta.DeletionTimestamp = true
  · by_cases hc : controllerutil.ContainsFinalizer config finalizerName = true
    · have hmem : finalizerName ∈ config.ObjectMeta.Finalizers := by
        simpa [controllerutil.ContainsFinalizer] using hc
      simp only [hz, hc, if_true, Bool.not_true, Bool.false_eq_true, if_false]
      refine ⟨config, false, w, rfl, by simp, by simp [hmem], ?_, by simp, by simp⟩
      simp
    · have hmem : ¬ finalizerName ∈ config.ObjectMeta.Finalizers := by
        simpa [controllerutil.ContainsFinalizer] using hc
      have hc' : controllerutil.ContainsFinalizer config finalizerName = false := by
        simpa using hc
      obtain ⟨w1, hrun, hcalls, _, _, _⟩ := UpdateCertificate_ok env
        (controllerutil.AddFinalizer config finalizerName) old w
        (by rw [AddFinalizer_key]; exact hstored) hfault
      have hfin : (controllerutil.AddFinalizer config finalizerName).ObjectMeta.Finalizers
          = config.ObjectMeta.Finalizers ++ [finalizerName] := by
        unfold controllerutil.AddFinalizer
        simp [hmem]
      simp only [hz, hc', if_true, Bool.not_false, goM_bind_eq, hrun, goM_pure_eq]
      refine ⟨_, false, w1, rfl, by simp, ?_, ?_, ?_, ?_⟩
      · simp [hfin]
      · simp [hfin, hmem, hcalls]
      · simp [hfin, hmem]
      · intro _
        exact ⟨_, hcalls, by simp⟩
  · have hz' : metav1.IsZero config.ObjectMeta.DeletionTimestamp = false := by simpa using hz
    by_cases hc : controllerutil.ContainsFinalizer config finalizerName = true
    · have hmem : finalizerName ∈ config.ObjectMeta.Finalizers := by
        simpa [controllerutil.ContainsFinalizer] using hc
      obtain ⟨w1, hrun, hcalls, _, _, _⟩ := UpdateCertificate_ok env
        (controllerutil.RemoveFinalizer config finalizerName) old w
        (by rw [RemoveFinalizer_key]; exact hstored) hfault
      simp only [hz', hc, if_true, Bool.false_eq_true, if_false, goM_bind_eq, hrun, goM_pure_eq]
      refine ⟨_, true, w1, rfl, by simp, ?_, ?_, ?_, ?_⟩
      · simp [controllerutil.RemoveFinalizer]
      · simp [controllerutil.RemoveFinalizer, hmem, hcalls]
      · simp [controllerutil.RemoveFinalizer, hmem]
      · intro _
        exact ⟨_, hcalls, by simp⟩
    · have hmem : ¬ finalizerName ∈ config.ObjectMeta.Finalizers := by
        simpa [controllerutil.ContainsFinalizer] using hc
      have hc' : controllerutil.ContainsFinalizer config finalizerName = false := by
        simpa using hc
      simp only [hz', hc', Bool.false_eq_true, if_false]
      refine ⟨config, true, w, rfl, by simp, by simp [hmem], ?_, by simp, by simp⟩
      simp

/-! ## Certificate template -/

/-- C6: when the validity parses to `d` (and a serial number could be drawn), the template
has the requested DNS name as subject common name and as its only subject alternative name,
starts at the clock reading and satisfies `notAfter - notBefore = d`; when the validity does
not parse, `certificateTemplate` returns an error and no template. -/
theorem certificateTemplate_contract (env : Env) (config : Certificate) (w : World) :
    (∀ d sn, parseCustomDuration env.fracNs config.Spec.Validity = Except.ok d →
        env.randInt w.rngDraws = Except.ok sn →
        ∃ tmpl w1, certificateTemplate env config w = Outcome.done (Except.ok tmpl) w1 ∧
          tmpl.Subject.CommonName = config.Spec.DNSName ∧
          tmpl.DNSNames = [config.Spec.DNSName] ∧
          tmpl.NotBefore = env.clock w.clockReads ∧
          tmpl.NotAfter - tmpl.NotBefore = d) ∧
    (∀ e, parseCustomDuration env.fracNs config.Spec.Validity = Except.error e →
        ∃ e1 w1, certificateTemplate env config w = Outcome.done (Except.error e1) w1) := by
  constructor
  · intro d sn hd hsn
    simp only [certificateTemplate, goM_bind_eq, rand.Int, hsn, time.Now, hd, goM_pure_eq]
    exact ⟨_, _, rfl, rfl, rfl, rfl, by simp [time.Add]⟩
  · intro e he
    cases hsn : env.randInt w.rngDraws with
    | error e0 =>
      simp only [certificateTemplate, goM_bind_eq, rand.Int, hsn, goM_pure_eq]
      exact ⟨_, _, rfl⟩
    | ok sn =>
      simp only [certificateTemplate, goM_bind_eq, rand.Int, hsn, time.Now, he, goM_pure_eq]
      exact ⟨_, _, rfl⟩

/-! ## Reasoning about runs -/

theorem appends_refl (P : Call → Prop) (w : World) : Appends P w w :=
  ⟨[], by simp, by simp⟩

theorem appends_trans {P : Call → Prop} {a b c : World} (h1 : Appends P a b)
    (h2 : Appends P b c) : Appends P a c := by
  obtain ⟨l1, e1, p1⟩ := h1
  obtain ⟨l2, e2, p2⟩ := h2
  refine ⟨l1 ++ l2, by rw [e2, e1, List.append_assoc], ?_⟩
  intro x hx
  rcases List.mem_append.mp hx with h | h
  · exact p1 x h
  · exact p2 x h

theorem appends_of_calls_eq {P : Call → Prop} {w w1 : World} (h : w1.calls = w.calls) :
    Appends P w w1 := ⟨[], by simp [h], by simp⟩

theorem appends_single {P : Call → Prop} {w w1 : World} (c : Call)
    (h : w1.calls = w.calls ++ [c]) (hc : P c) : Appends P w w1 :=
  ⟨[c], h, by simpa using hc⟩

theorem run_pure {α : Type} (F : Frame) (a : α) (Q : α → Prop) (hq : Q a) :
    Run F (pure a : GoM α) Q := by
  intro w hw
  refine ⟨hw, appends_refl _ _, ?_⟩
  intro b w1 h
  have hb : a = b := by
    have h2 : Outcome.done a w = Outcome.done b w1 := h
    injection h2
  exact hb ▸ hq

theorem run_bind {α β : Type} (F : Frame) (m : GoM α) (f : α → GoM β) (Q : α → Prop)
    (Q1 : β → Prop) (hm : Run F m Q) (hf : ∀ a, Q a → Run F (f a) Q1) :
    Run F (m >>= f) Q1 := by
  intro w hw
  obtain ⟨hI, hA, hQ⟩ := hm w hw
  rw [goM_bind_eq]
  cases hmw : m w with
  | done a w1 =>
    rw [hmw] at hI hA
    obtain ⟨hI2, hA2, hQ2⟩ := hf a (hQ a w1 hmw) w1 hI
    exact ⟨hI2, appends_trans hA hA2, hQ2⟩
  | panic msg w1 =>
    rw [hmw] at hI hA
    refine ⟨hI, hA, ?_⟩
    intro b w2 h
    simp at h

/-- A computation that leaves the stores and the call trace alone. -/
theorem run_of_quiet {α : Type} (F : Frame) (m : GoM α)
    (h : ∀ w, (m w).world.secrets = w.secrets ∧ (m w).world.calls = w.calls) :
    Run F m (fun _ => True) := by
  intro w hw
  exact ⟨F.stable w _ (h w).1 hw, appends_of_calls_eq (h w).2, fun _ _ _ => trivial⟩

theorem run_panic {α : Type} (F : Frame) (msg : String) (Q : α → Prop) :
    Run F (goPanic msg : GoM α) Q := by
  intro w hw
  refine ⟨hw, appends_refl _ _, ?_⟩
  intro a w1 h
  simp [goPanic] at h

theorem silent_pure {α : Type} (a : α) : Silent (pure a : GoM α) :=
  fun w => ⟨a, w, rfl, rfl, rfl, rfl⟩

theorem silent_bind {α β : Type} (m : GoM α) (f : α → GoM β) (hm : Silent m)
    (hf : ∀ a, Silent (f a)) : Silent (m >>= f) := by
  intro w
  obtain ⟨a, w1, e1, s1, c1, l1⟩ := hm w
  obtain ⟨b, w2, e2, s2, c2, l2⟩ := hf a w1
  refine ⟨b, w2, ?_, s2.trans s1, c2.trans c1, l2.trans l1⟩
  rw [goM_bind_eq, e1]
  exact e2

theorem silent_run {α : Type} (F : Frame) {m : GoM α} (h : Silent m) :
    Run F m (fun _ => True) := by
  apply run_of_quiet
  intro w
  obtain ⟨a, w1, e, s, _, l⟩ := h w
  rw [e]
  exact ⟨s, l⟩

theorem time_Now_silent (env : Env) : Silent (time.Now env) :=
  fun w => ⟨_, _, rfl, rfl, rfl, rfl⟩

theorem rsa_GenerateKey_silent (env : Env) : Silent (rsa.GenerateKey env) :=
  fun w => ⟨_, _, rfl, rfl, rfl, rfl⟩

theorem rand_Int_silent (env : Env) : Silent (rand.Int env) :=
  fun w => ⟨_, _, rfl, rfl, rfl, rfl⟩

theorem time_Until_silent (env : Env) (t : Int) : Silent (time.Until env t) := by
  unfold time.Until
  exact silent_bind _ _ (time_Now_silent env) (fun _ => silent_pure _)

theorem isSecretDataEqual_silent (env : Env) (config : Certificate) (secret : Secret) :
    Silent (isSecretDataEqual env config secret) := by
  unfold isSecretDataEqual
  split
  · exact silent_pure _
  · split
    · exact silent_pure _
    · split
      · exact silent_pure _
      · split
        · exact silent_pure _
        · exact silent_bind _ _ (time_Until_silent env _) (fun _ => silent_pure _)

theorem certificateTemplate_silent (env : Env) (config : Certificate) :
    Silent (certificateTemplate env config) := by
  unfold certificateTemplate
  refine silent_bind _ _ (rand_Int_silent env) ?_
  intro serial
  split
  · exact silent_pure _
  · refine silent_bind _ _ (time_Now_silent env) ?_
    intro nb
    split
    · exact silent_pure _
    · exact silent_pure _

theorem issueCertificate_silent (env : Env) (config : Certificate) :
    Silent (issueCertificate env config) := by
  unfold issueCertificate
  refine silent_bind _ _ (rsa_GenerateKey_silent env) ?_
  intro key
  split
  · exact silent_pure _
  · refine silent_bind _ _ (certificateTemplate_silent env config) ?_
    intro tmpl
    split
    · exact silent_pure _
    · split
      · exact silent_pure _
      · exact silent_pure _

theorem meta_transition_silent (env : Env) (a b : Condition) : Silent (meta.transition env a b) := by
  unfold meta.transition
  split
  · split
    · exact silent_pure _
    · exact silent_bind _ _ (time_Now_silent env) (fun _ => silent_pure _)
  · exact silent_pure _

theorem meta_SetStatusCondition_silent (env : Env) (l : List Condition) (c : Condition) :
    Silent (meta.SetStatusCondition env l c) := by
  unfold meta.SetStatusCondition
  split
  · split
    · exact silent_bind _ _ (time_Now_silent env) (fun _ => silent_pure _)
    · exact silent_pure _
  · exact silent_bind _ _ (meta_transition_silent env _ _) (fun _ => silent_pure _)

theorem setConditionStatus_silent (env : Env) (config : Certificate) (st : ConditionStatus)
    (t r m : String) : Silent (setConditionStatus env config st t r m) := by
  unfold setConditionStatus
  refine silent_bind _ _ (time_Now_silent env) ?_
  intro now
  exact silent_bind _ _ (meta_SetStatusCondition_silent env _ _) (fun _ => silent_pure _)

/-! ## The name and namespace under which the Credential is addressed -/

theorem lookup_mem {α β : Type} [DecidableEq α] (k : α) (v : β) (l : List (α × β))
    (h : l.lookup k = some v) : (k, v) ∈ l := by
  induction l with
  | nil => simp [List.lookup] at h
  | cons x rest ih =>
    obtain ⟨k1, v1⟩ := x
    by_cases hk : k = k1
    · subst hk
      simp [List.lookup] at h
      simp [h]
    · have hb : (k == k1) = false := by simpa using hk
      simp only [List.lookup, hb] at h
      exact List.mem_cons_of_mem _ (ih h)

theorem assocSet_mem {α β : Type} [DecidableEq α] (key : α) (v : β) (l : List (α × β))
    (x : α × β) (h : x ∈ assocSet key v l) : x = (key, v) ∨ x ∈ l := by
  induction l with
  | nil => simp [assocSet] at h; exact Or.inl h
  | cons y rest ih =>
    obtain ⟨k1, v1⟩ := y
    unfold assocSet at h
    split at h
    · rcases List.mem_cons.mp h with h | h
      · exact Or.inl h
      · exact Or.inr (List.mem_cons_of_mem _ h)
    · rcases List.mem_cons.mp h with h | h
      · exact Or.inr (h ▸ List.mem_cons_self _ _)
      · rcases ih h with h | h
        · exact Or.inl h
        · exact Or.inr (List.mem_cons_of_mem _ h)

theorem GetSecret_keyed (env : Env) (key : NamespacedName) (obj : Secret) :
    Run (keyedFrame key) (Client.GetSecret env key obj)
      (fun r => r.1 = obj ∨ r.1.key = key) := by
  intro w hw
  unfold Client.GetSecret
  cases hf : env.fault w.calls.length with
  | some e =>
    refine ⟨hw, appends_single (Call.GetSecret key) rfl (by intro k hk; simpa [Call.secretKey] using hk.symm), ?_⟩
    intro a w1 h
    simp at h
    exact Or.inl (by rw [← h.1])
  | none =>
    cases hl : w.secrets.lookup key with
    | none =>
      refine ⟨hw, appends_single (Call.GetSecret key) rfl (by intro k hk; simpa [Call.secretKey] using hk.symm), ?_⟩
      intro a w1 h
      simp at h
      exact Or.inl (by rw [← h.1])
    | some s =>
      refine ⟨hw, appends_single (Call.GetSecret key) rfl (by intro k hk; simpa [Call.secretKey] using hk.symm), ?_⟩
      intro a w1 h
      simp at h
      exact Or.inr (by rw [← h.1]; exact hw key s (lookup_mem key s _ hl))

theorem CreateSecret_keyed (env : Env) (key : NamespacedName) (obj : Secret)
    (hobj : obj.key = key) :
    Run (keyedFrame key) (Client.CreateSecret env obj) (fun _ => True) := by
  intro w hw
  have hP : (keyedFrame key).P (Call.CreateSecret obj) := by
    intro k hk
    simp [Call.secretKey] at hk
    rw [← hk, hobj]
  unfold Client.CreateSecret
  cases hf : env.fault w.calls.length with
  | some e => exact ⟨hw, appends_single _ rfl hP, fun _ _ _ => trivial⟩
  | none =>
    cases hl : w.secrets.lookup obj.key with
    | some s => exact ⟨hw, appends_single _ rfl hP, fun _ _ _ => trivial⟩
    | none =>
      refine ⟨?_, appends_single _ rfl hP, fun _ _ _ => trivial⟩
      intro k s hm
      simp only [Outcome.world] at hm
      rcases List.mem_append.mp hm with h | h
      · exact hw k s h
      · simp at h
        rw [h.1, h.2]

theorem UpdateSecret_keyed (env : Env) (key : NamespacedName) (obj : Secret)
    (hobj : obj.key = key) :
    Run (keyedFrame key) (Client.UpdateSecret env obj) (fun _ => True) := by
  intro w hw
  have hP : (keyedFrame key).P (Call.UpdateSecret obj) := by
    intro k hk
    simp [Call.secretKey] at hk
    rw [← hk, hobj]
  unfold Client.UpdateSecret
  cases hf : env.fault w.calls.length with
  | some e => exact ⟨hw, appends_single _ rfl hP, fun _ _ _ => trivial⟩
  | none =>
    cases hl : w.secrets.lookup obj.key with
    | none => exact ⟨hw, appends_single _ rfl hP, fun _ _ _ => trivial⟩
    | some s =>
      refine ⟨?_, appends_single _ rfl hP, fun _ _ _ => trivial⟩
      intro k s1 hm
      simp only [Outcome.world] at hm
      rcases assocSet_mem _ _ _ _ hm with h | h
      · simp at h
        rw [h.1, h.2]
      · exact hw k s1 h

/-- A client call on the request store: the credential store is untouched and the single
appended call satisfies the call property. -/
theorem run_certOp {α : Type} (F : Frame) (m : GoM α)
    (h : ∀ w, (m w).world.secrets = w.secrets ∧
      ∃ c, (m w).world.calls = w.calls ++ [c] ∧ F.P c) :
    Run F m (fun _ => True) := by
  intro w hw
  obtain ⟨hs, c, hc, hp⟩ := h w
  exact ⟨F.stable w _ hs hw, appends_single c hc hp, fun _ _ _ => trivial⟩

theorem GetCertificate_world (env : Env) (key : NamespacedName) (obj : Certificate) (w : World) :
    (Client.GetCertificate env key obj w).world.secrets = w.secrets ∧
    (Client.GetCertificate env key obj w).world.calls = w.calls ++ [Call.GetCertificate key] := by
  unfold Client.GetCertificate
  cases env.fault w.calls.length <;> cases w.certificates.lookup key <;> exact ⟨rfl, rfl⟩

theorem UpdateCertificate_world (env : Env) (obj : Certificate) (w : World) :
    (Client.UpdateCertificate env obj w).world.secrets = w.secrets ∧
    (Client.UpdateCertificate env obj w).world.calls = w.calls ++ [Call.UpdateCertificate obj] := by
  unfold Client.UpdateCertificate
  cases env.fault w.calls.length
  · cases w.certificates.lookup obj.key
    · exact ⟨rfl, rfl⟩
    · simp only []
      split <;> exact ⟨rfl, rfl⟩
  · exact ⟨rfl, rfl⟩

theorem UpdateCertificateStatus_world (env : Env) (obj : Certificate) (w : World) :
    (Client.UpdateCertificateStatus env obj w).world.secrets = w.secrets ∧
    (Client.UpdateCertificateStatus env obj w).world.calls
      = w.calls ++ [Call.UpdateCertificateStatus obj] := by
  unfold Client.UpdateCertificateStatus
  cases env.fault w.calls.length <;> cases w.certificates.lookup obj.key <;> exact ⟨rfl, rfl⟩

theorem renewCertificate_keyed (env : Env) (config : Certificate) (secret : Secret)
    (key : NamespacedName) (hs : secret.key = key) :
    Run (keyedFrame key) (renewCertificate env config secret) (fun _ => True) := by
  rw [renewCertificate_steps]
  unfold renewCertificateSteps
  refine run_bind _ _ _ _ _ (silent_run _ (issueCertificate_silent env config)) ?_
  intro issued _
  split
  · exact run_pure _ _ _ trivial
  · split
    · exact run_panic _ _ _
    · split
      · exact run_panic _ _ _
      · refine run_bind _ _ _ _ _ (UpdateSecret_keyed env key _ hs) ?_
        intro err _
        split <;> exact run_pure _ _ _ trivial

theorem createOrUpdateSecret_keyed (env : Env) (config : Certificate) (secret : Secret)
    (hs : secret.key = secretKey config) :
    Run (keyedFrame (secretKey config)) (createOrUpdateSecret env config secret)
      (fun _ => True) := by
  unfold createOrUpdateSecret
  refine run_bind _ _ _ _ _ (GetSecret_keyed env (secretKey config) secret) ?_
  intro got hgot
  have hk : got.1.key = secretKey config := by
    rcases hgot with h | h
    · rw [h]; exact hs
    · exact h
  split
  · rename_i s1 err
    split
    · refine run_bind _ _ _ _ _ (CreateSecret_keyed env _ s1 hk) ?_
      intro cerr _
      split <;> exact run_pure _ _ _ trivial
    · exact run_pure _ _ _ trivial
  · rename_i s1
    refine run_bind _ _ _ _ _ (silent_run _ (isSecretDataEqual_silent env config s1)) ?_
    intro same _
    split
    · refine run_bind _ _ _ _ _ (renewCertificate_keyed env config s1 _ hk) ?_
      intro renewed _
      split <;> exact run_pure _ _ _ trivial
    · exact run_pure _ _ _ trivial

theorem SetControllerReference_key (env : Env) (owner : Certificate) (obj s : Secret)
    (h : controllerutil.SetControllerReference env owner obj = Except.ok s) : s.key = obj.key := by
  unfold controllerutil.SetControllerReference at h
  split at h
  · simp at h
  · simp at h
    rw [← h]
    rfl

theorem certificateManager_keyed (env : Env) (config : Certificate) (secret : Secret) :
    Run (keyedFrame (secretKey config)) (certificateManager env config secret)
      (fun _ => True) := by
  rw [certificateManager_steps]
  unfold certificateManagerSteps
  refine run_bind _ _ _ _ _ (GetSecret_keyed env (secretKey config) secret) ?_
  intro got _
  simp only []
  split
  · exact run_pure _ _ _ trivial
  · refine run_bind _ _ _ _ _ (silent_run _ (issueCertificate_silent env config)) ?_
    intro issued _
    split
    · exact run_pure _ _ _ trivial
    · rename_i certPEM keyPEM
      refine run_bind _ _ _ _ _ (createOrUpdateSecret_keyed env config _ ?_) ?_
      · split
        · rename_i s hs
          rw [SetControllerReference_key env config _ s hs]
          rfl
        · rfl
      · intro res _
        split <;> exact run_pure _ _ _ trivial

theorem setCertificateStatus_keyed (env : Env) (config : Certificate) (secret : Secret) :
    Run (keyedFrame (secretKey config)) (setCertificateStatus env config secret)
      (fun _ => True) := by
  unfold setCertificateStatus
  refine run_bind _ _ _ _ _ (GetSecret_keyed env (secretKey config) secret) ?_
  intro got _
  split
  · exact run_pure _ _ _ trivial
  · simp only []
    split
    · exact run_pure _ _ _ trivial
    · split
      · exact run_pure _ _ _ trivial
      · refine run_bind _ _ _ _ _ (silent_run _ (setConditionStatus_silent env _ _ _ _ _)) ?_
        intro c2 _
        refine run_bind _ _ _ _ _ (silent_run _ (setConditionStatus_silent env _ _ _ _ _)) ?_
        intro c3 _
        refine run_bind _ _ _ _ _ (run_certOp _ _ ?_) ?_
        · intro w
          exact ⟨(UpdateCertificateStatus_world env c3 w).1, _,
            (UpdateCertificateStatus_world env c3 w).2, by intro k hk; simp [Call.secretKey] at hk⟩
        · intro upd _
          split <;> exact run_pure _ _ _ trivial

theorem UpdateCertificate_run (F : Frame) (env : Env) (obj : Certificate)
    (hP : F.P (Call.UpdateCertificate obj)) :
    Run F (Client.UpdateCertificate env obj)
      (fun r => r.1.Spec = obj.Spec ∧ r.1.ObjectMeta = obj.ObjectMeta) := by
  intro w hw
  refine ⟨F.stable w _ (UpdateCertificate_world env obj w).1 hw,
    appends_single _ (UpdateCertificate_world env obj w).2 hP, ?_⟩
  intro a w1
  unfold Client.UpdateCertificate
  cases env.fault w.calls.length with
  | some e =>
    intro h
    simp at h
    rw [← h.1]
    exact ⟨rfl, rfl⟩
  | none =>
    cases w.certificates.lookup obj.key with
    | none =>
      intro h
      simp at h
      rw [← h.1]
      exact ⟨rfl, rfl⟩
    | some old =>
      simp only []
      split <;> (intro h; simp at h; rw [← h.1]; exact ⟨rfl, rfl⟩)

theorem AddFinalizer_spec (o : Certificate) (f : String) :
    (controllerutil.AddFinalizer o f).Spec = o.Spec ∧
    (controllerutil.AddFinalizer o f).ObjectMeta.Namespace = o.ObjectMeta.Namespace := by
  unfold controllerutil.AddFinalizer
  split <;> exact ⟨rfl, rfl⟩

theorem HandleFinalizer_run (F : Frame) (env : Env) (config : Certificate)
    (hP : ∀ c, Call.secretKey c = none → F.P c) :
    Run F (HandleFinalizer env config)
      (fun r => r.1.Spec = config.Spec ∧
        r.1.ObjectMeta.Namespace = config.ObjectMeta.Namespace) := by
  unfold HandleFinalizer
  split
  · split
    · refine run_bind _ _ _ _ _ (UpdateCertificate_run F env _ (hP _ rfl)) ?_
      intro upd hupd
      have h1 := AddFinalizer_spec config finalizerName
      have h2 : upd.1.Spec = config.Spec ∧
          upd.1.ObjectMeta.Namespace = config.ObjectMeta.Namespace :=
        ⟨hupd.1.trans h1.1, by rw [hupd.2]; exact h1.2⟩
      split <;> exact run_pure _ _ _ h2
    · exact run_pure _ _ _ ⟨rfl, rfl⟩
  · split
    · refine run_bind _ _ _ _ _ (UpdateCertificate_run F env _ (hP _ rfl)) ?_
      intro upd hupd
      have h2 : upd.1.Spec = config.Spec ∧
          upd.1.ObjectMeta.Namespace = config.ObjectMeta.Namespace :=
        ⟨hupd.1, by rw [hupd.2]; rfl⟩
      split <;> exact run_pure _ _ _ h2
    · exact run_pure _ _ _ ⟨rfl, rfl⟩

theorem keyedFrame_certCalls (key : NamespacedName) :
    ∀ c, Call.secretKey c = none → (keyedFrame key).P c := by
  intro c hc k hk
  rw [hc] at hk
  simp at hk

theorem UpdateCertificateStatus_run (F : Frame) (env : Env) (obj : Certificate)
    (hP : ∀ c, Call.secretKey c = none → F.P c) :
    Run F (Client.UpdateCertificateStatus env obj) (fun _ => True) :=
  run_certOp F _ (fun w => ⟨(UpdateCertificateStatus_world env obj w).1, _,
    (UpdateCertificateStatus_world env obj w).2, hP _ rfl⟩)

theorem reconcileFetched_keyed (env : Env) (config : Certificate) :
    Run (keyedFrame (secretKey config)) (reconcileFetched env config) (fun _ => True) := by
  unfold reconcileFetched
  refine run_bind _ _ _ _ _
    (HandleFinalizer_run _ env config (keyedFrame_certCalls _)) ?_
  intro fin hfin
  have hkey : secretKey fin.1 = secretKey config := by
    unfold secretKey
    rw [hfin.1, hfin.2]
  split
  · exact run_pure _ _ _ trivial
  · split
    · exact run_pure _ _ _ trivial
    · simp only []
      rw [← hkey]
      refine run_bind _ _ _ _ _ (certificateManager_keyed env fin.1 emptySecret) ?_
      intro managed _
      split
      · refine run_bind _ _ _ _ _ (silent_run _ (setConditionStatus_silent env _ _ _ _ _)) ?_
        intro c1 _
        refine run_bind _ _ _ _ _
          (UpdateCertificateStatus_run _ env c1 (keyedFrame_certCalls _)) ?_
        intro _ _
        exact run_pure _ _ _ trivial
      · refine run_bind _ _ _ _ _ (setCertificateStatus_keyed env fin.1 managed.1) ?_
        intro _ _
        exact run_pure _ _ _ trivial

/-- C8 (amended): every get, create and update that a reconcile pass issues on the
credential store addresses the name of the request's credential reference in the namespace
of the request itself. -/
theorem Reconcile_secret_calls_keyed (env : Env) (req : NamespacedName) (w : World)
    (c : Certificate) (hw : WellKeyed w) (hc : w.certificates.lookup req = some c) :
    ∃ l, (Reconcile env req w).world.calls = w.calls ++ l ∧
      ∀ call ∈ l, ∀ k, call.secretKey = some k →
        k = { Name := c.Spec.SecretRef.Name, Namespace := c.ObjectMeta.Namespace } := by
  have hget : ∀ e, (keyedFrame (secretKey c)).P (Call.GetCertificate e) :=
    fun e => keyedFrame_certCalls _ _ rfl
  rw [Reconcile_steps]
  unfold ReconcileSteps
  rw [goM_bind_eq]
  unfold Client.GetCertificate
  cases hf : env.fault w.calls.length with
  | some e =>
    simp only []
    refine ⟨[Call.GetCertificate req], ?_, ?_⟩
    · split <;> rfl
    · intro call hcall k hk
      simp at hcall
      rw [hcall] at hk
      simp [Call.secretKey] at hk
  | none =>
    simp only [hc]
    have hrun := reconcileFetched_keyed env c
      { w with calls := w.calls ++ [Call.GetCertificate req] } hw
    obtain ⟨l, hl, hp⟩ := hrun.2.1
    refine ⟨Call.GetCertificate req :: l, ?_, ?_⟩
    · rw [hl]
      simp
    · intro call hcall k hk
      rcases List.mem_cons.mp hcall with h | h
      · rw [h] at hk
        simp [Call.secretKey] at hk
      · exact hp call h k hk

/-! ## Failure of the issue step -/

theorem find_replaceCondition (t : String) (c x : Condition) (l : List Condition)
    (hx : l.find? (fun y => y.Type' == t) = some x) (hc : c.Type' = t) :
    (replaceCondition t c l).find? (fun y => y.Type' == t) = some c := by
  induction l with
  | nil => simp at hx
  | cons y rest ih =>
    unfold replaceCondition
    by_cases hy : (y.Type' == t) = true
    · simp [hy, hc]
    · have hy' : (y.Type' == t) = false := by simpa using hy
      rw [List.find?_cons, hy'] at hx
      simp only [hy', Bool.false_eq_true, if_false]
      rw [List.find?_cons, hy']
      exact ih hx

theorem find_append_new (t : String) (c : Condition) (l : List Condition)
    (hx : l.find? (fun y => y.Type' == t) = none) (hc : c.Type' = t) :
    (l ++ [c]).find? (fun y => y.Type' == t) = some c := by
  induction l with
  | nil => simp [hc]
  | cons y rest ih =>
    by_cases hy : (y.Type' == t) = true
    · rw [List.find?_cons, hy] at hx
      simp at hx
    · have hy' : (y.Type' == t) = false := by simpa using hy
      rw [List.find?_cons, hy'] at hx
      rw [List.cons_append, List.find?_cons, hy']
      exact ih hx

theorem meta_transition_result (env : Env) (existing nc : Condition) (w : World) :
    ∃ e1 w1, meta.transition env existing nc w = Outcome.done e1 w1 ∧
      e1.Type' = existing.Type' ∧ e1.Status = nc.Status ∧
      w1.calls = w.calls ∧ w1.secrets = w.secrets ∧ w1.certificates = w.certificates := by
  unfold meta.transition
  by_cases hs : existing.Status = nc.Status
  · have : (existing.Status != nc.Status) = false := by simp [hs]
    simp only [this, Bool.false_eq_true, if_false]
    exact ⟨_, _, rfl, rfl, hs, rfl, rfl, rfl⟩
  · have : (existing.Status != nc.Status) = true := by simp [hs]
    simp only [this, if_true]
    split
    · exact ⟨_, _, rfl, rfl, rfl, rfl, rfl, rfl⟩
    · exact ⟨_, _, rfl, rfl, rfl, rfl, rfl, rfl⟩

theorem SetStatusCondition_sets (env : Env) (conds : List Condition) (nc : Condition)
    (w : World) :
    ∃ conds1 w1 cond, meta.SetStatusCondition env conds nc w = Outcome.done conds1 w1 ∧
      w1.calls = w.calls ∧ w1.secrets = w.secrets ∧ w1.certificates = w.certificates ∧
      meta.FindStatusCondition conds1 nc.Type' = some cond ∧
      cond.Status = nc.Status ∧ cond.Reason = nc.Reason ∧ cond.Message = nc.Message := by
  unfold meta.SetStatusCondition
  cases hfind : meta.FindStatusCondition conds nc.Type' with
  | none =>
    simp only []
    split
    · exact ⟨_, _, _, rfl, rfl, rfl, rfl, find_append_new _ _ _ hfind rfl, rfl, rfl, rfl⟩
    · exact ⟨_, _, _, rfl, rfl, rfl, rfl, find_append_new _ _ _ hfind rfl, rfl, rfl, rfl⟩
  | some existing =>
    simp only []
    obtain ⟨e1, w1, hrun, hty, hst, hcalls, hsec, hcert⟩ := meta_transition_result env existing nc w
    have hex : existing.Type' = nc.Type' := by
      have := List.find?_some hfind
      simpa using this
    rw [goM_bind_eq, hrun]
    refine ⟨_, _, Condition.mk e1.Type' e1.Status e1.LastTransitionTime nc.Reason nc.Message
      nc.ObservedGeneration, rfl, hcalls, hsec, hcert, ?_, hst, rfl, rfl⟩
    exact find_replaceCondition _ _ _ _ hfind (hty.trans hex)

theorem setConditionStatus_sets (env : Env) (config : Certificate) (st : ConditionStatus)
    (t r m : String) (w : World) :
    ∃ c1 w1 cond, setConditionStatus env config st t r m w = Outcome.done c1 w1 ∧
      w1.calls = w.calls ∧ w1.secrets = w.secrets ∧ w1.certificates = w.certificates ∧
      c1.ObjectMeta = config.ObjectMeta ∧ c1.Spec = config.Spec ∧
      meta.FindStatusCondition c1.Status.Conditions t = some cond ∧
      cond.Status = st ∧ cond.Reason = r ∧ cond.Message = m := by
  unfold setConditionStatus
  rw [goM_bind_eq]
  simp only [time.Now]
  obtain ⟨conds1, w1, cond, hrun, hcalls, hsec, hcert, hfind, hst, hr, hm⟩ :=
    SetStatusCondition_sets env config.Status.Conditions
      { Type' := t, Status := st, LastTransitionTime := env.clock w.clockReads, Reason := r,
        Message := m, ObservedGeneration := config.ObjectMeta.Generation }
      { w with clockReads := w.clockReads + 1 }
  rw [goM_bind_eq, hrun]
  exact ⟨_, _, cond, rfl, hcalls, hsec, hcert, rfl, rfl, hfind, hst, hr, hm⟩

/-- C9: when the issue step `certificateManager` fails with `e`, the pass sets the
ReconcileError condition to true with the text of `e` as message, issues exactly one status
update carrying it (no further call, so the Status Reporter does not run), and returns `e`,
whatever the status update answers. -/
theorem Reconcile_reports_issue_failure (env : Env) (req : NamespacedName)
    (w w1 w2 w3 : World) (c0 c1 : Certificate) (s : Secret) (e : GoError)
    (hget : Client.GetCertificate env req emptyCertificate w = Outcome.done (c0, none) w1)
    (hfin : HandleFinalizer env c0 w1 = Outcome.done (c1, false, none) w2)
    (hman : certificateManager env c1 emptySecret w2 = Outcome.done (s, some e) w3) :
    ∃ c2 w4 cond,
      Reconcile env req w = Outcome.done (some e) w4 ∧
      w4.calls = w3.calls ++ [Call.UpdateCertificateStatus c2] ∧
      w4.secrets = w3.secrets ∧
      c2.ObjectMeta = c1.ObjectMeta ∧ c2.Spec = c1.Spec ∧
      meta.FindStatusCondition c2.Status.Conditions TypeReconcileError = some cond ∧
      cond.Status = ConditionStatus.ConditionTrue ∧
      cond.Reason = ReconcileFailed ∧
      cond.Message = e.msg := by
  obtain ⟨c2, w3', cond, hset, hcalls, hsec, _, hmeta, hspec, hfind, hst, hr, hm⟩ :=
    setConditionStatus_sets env c1 ConditionStatus.ConditionTrue TypeReconcileError
      ReconcileFailed e.msg w3
  have hupd := UpdateCertificateStatus_world env c2 w3'
  rw [Reconcile_steps]
  unfold ReconcileSteps
  rw [goM_bind_eq, hget]
  simp only []
  unfold reconcileFetched
  rw [goM_bind_eq, hfin]
  simp only [Bool.false_eq_true, if_false]
  rw [goM_bind_eq, hman]
  simp only []
  rw [goM_bind_eq, hset]
  simp only []
  rw [goM_bind_eq]
  cases hu : Client.UpdateCertificateStatus env c2 w3' with
  | done a w4 =>
    rw [hu] at hupd
    simp only [Outcome.world] at hupd
    refine ⟨c2, w4, cond, rfl, ?_, ?_, hmeta, hspec, hfind, hst, hr, hm⟩
    · rw [hupd.2, hcalls]
    · rw [hupd.1, hsec]
  | panic msg w4 =>
    exfalso
    unfold Client.UpdateCertificateStatus at hu
    cases hf : env.fault w3'.calls.length <;> rw [hf] at hu
    · cases hl : List.lookup c2.key w3'.certificates <;> rw [hl] at hu <;> simp at hu
    · simp at hu

/-! ## Idempotence -/

theorem runT_pure {α : Type} (F : Frame) (a : α) (Q : α → Prop) (hq : Q a) :
    RunT F (pure a : GoM α) Q :=
  fun w hw => ⟨a, w, rfl, hw, appends_refl _ _, hq⟩

theorem runT_bind {α β : Type} (F : Frame) (m : GoM α) (f : α → GoM β) (Q : α → Prop)
    (Q1 : β → Prop) (hm : RunT F m Q) (hf : ∀ a, Q a → RunT F (f a) Q1) :
    RunT F (m >>= f) Q1 := by
  intro w hw
  obtain ⟨a, w1, e1, hI, hA, hQ⟩ := hm w hw
  obtain ⟨b, w2, e2, hI2, hA2, hQ2⟩ := hf a hQ w1 hI
  exact ⟨b, w2, by rw [goM_bind_eq, e1]; exact e2, hI2, appends_trans hA hA2, hQ2⟩

theorem silent_runT {α : Type} (F : Frame) {m : GoM α} (h : Silent m) :
    RunT F m (fun _ => True) := by
  intro w hw
  obtain ⟨a, w1, e, s, _, l⟩ := h w
  exact ⟨a, w1, e, F.stable w w1 s hw, appends_of_calls_eq l, trivial⟩

theorem GetSecret_readOnly (env : Env) (S : List (NamespacedName × Secret))
    (key : NamespacedName) (obj : Secret) :
    RunT (readOnlyFrame S) (Client.GetSecret env key obj) (fun _ => True) := by
  intro w hw
  unfold Client.GetSecret
  cases env.fault w.calls.length with
  | some e => exact ⟨_, _, rfl, hw, appends_single (Call.GetSecret key) rfl rfl, trivial⟩
  | none =>
    cases w.secrets.lookup key with
    | none => exact ⟨_, _, rfl, hw, appends_single (Call.GetSecret key) rfl rfl, trivial⟩
    | some s => exact ⟨_, _, rfl, hw, appends_single (Call.GetSecret key) rfl rfl, trivial⟩

theorem GetSecret_found (env : Env) (S : List (NamespacedName × Secret))
    (key : NamespacedName) (obj stored : Secret) (hfault : ∀ k, env.fault k = none)
    (hS : S.lookup key = some stored) :
    RunT (readOnlyFrame S) (Client.GetSecret env key obj) (fun r => r = (stored, none)) := by
  intro w hw
  have hw' : w.secrets = S := hw
  unfold Client.GetSecret
  simp only [hfault, hw', hS]
  exact ⟨_, _, rfl, rfl, appends_single (Call.GetSecret key) (by simp) rfl, rfl⟩

theorem readOnlyFrame_certCalls (S : List (NamespacedName × Secret)) :
    ∀ c, Call.secretKey c = none → (readOnlyFrame S).P c := by
  intro c hc
  cases c <;> simp [Call.secretKey] at hc <;> rfl

theorem UpdateCertificate_runT (F : Frame) (env : Env) (obj : Certificate)
    (hP : F.P (Call.UpdateCertificate obj)) :
    RunT F (Client.UpdateCertificate env obj)
      (fun r => r.1.Spec = obj.Spec ∧ r.1.ObjectMeta = obj.ObjectMeta) := by
  intro w hw
  have hrun := UpdateCertificate_run F env obj hP w hw
  cases hu : Client.UpdateCertificate env obj w with
  | done a w1 =>
    rw [hu] at hrun
    exact ⟨a, w1, rfl, hrun.1, hrun.2.1, hrun.2.2 a w1 rfl⟩
  | panic msg w1 =>
    exfalso
    unfold Client.UpdateCertificate at hu
    cases hf : env.fault w.calls.length <;> rw [hf] at hu
    · cases hl : List.lookup obj.key w.certificates <;> rw [hl] at hu
      · simp at hu
      · simp only [] at hu
        split at hu <;> simp at hu
    · simp at hu

theorem UpdateCertificateStatus_runT (F : Frame) (env : Env) (obj : Certificate)
    (hP : ∀ c, Call.secretKey c = none → F.P c) :
    RunT F (Client.UpdateCertificateStatus env obj) (fun _ => True) := by
  intro w hw
  have hrun := UpdateCertificateStatus_run F env obj hP w hw
  cases hu : Client.UpdateCertificateStatus env obj w with
  | done a w1 =>
    rw [hu] at hrun
    exact ⟨a, w1, rfl, hrun.1, hrun.2.1, trivial⟩
  | panic msg w1 =>
    exfalso
    unfold Client.UpdateCertificateStatus at hu
    cases hf : env.fault w.calls.length <;> rw [hf] at hu
    · cases hl : List.lookup obj.key w.certificates <;> rw [hl] at hu <;> simp at hu
    · simp at hu

theorem HandleFinalizer_runT (F : Frame) (env : Env) (config : Certificate)
    (hP : ∀ c, Call.secretKey c = none → F.P c) :
    RunT F (HandleFinalizer env config)
      (fun r => r.1.Spec = config.Spec ∧
        r.1.ObjectMeta.Namespace = config.ObjectMeta.Namespace) := by
  unfold HandleFinalizer
  split
  · split
    · refine runT_bind _ _ _ _ _ (UpdateCertificate_runT F env _ (hP _ rfl)) ?_
      intro upd hupd
      have h1 := AddFinalizer_spec config finalizerName
      have h2 : upd.1.Spec = config.Spec ∧
          upd.1.ObjectMeta.Namespace = config.ObjectMeta.Namespace :=
        ⟨hupd.1.trans h1.1, by rw [hupd.2]; exact h1.2⟩
      split <;> exact runT_pure _ _ _ h2
    · exact runT_pure _ _ _ ⟨rfl, rfl⟩
  · split
    · refine runT_bind _ _ _ _ _ (UpdateCertificate_runT F env _ (hP _ rfl)) ?_
      intro upd hupd
      have h2 : upd.1.Spec = config.Spec ∧
          upd.1.ObjectMeta.Namespace = config.ObjectMeta.Namespace :=
        ⟨hupd.1, by rw [hupd.2]; rfl⟩
      split <;> exact runT_pure _ _ _ h2
    · exact runT_pure _ _ _ ⟨rfl, rfl⟩

theorem setCertificateStatus_readOnly (env : Env) (S : List (NamespacedName × Secret))
    (config : Certificate) (secret : Secret) :
    RunT (readOnlyFrame S) (setCertificateStatus env config secret) (fun _ => True) := by
  unfold setCertificateStatus
  refine runT_bind _ _ _ _ _ (GetSecret_readOnly env S (secretKey config) secret) ?_
  intro got _
  split
  · exact runT_pure _ _ _ trivial
  · simp only []
    split
    · exact runT_pure _ _ _ trivial
    · split
      · exact runT_pure _ _ _ trivial
      · refine runT_bind _ _ _ _ _ (silent_runT _ (setConditionStatus_silent env _ _ _ _ _)) ?_
        intro c2 _
        refine runT_bind _ _ _ _ _ (silent_runT _ (setConditionStatus_silent env _ _ _ _ _)) ?_
        intro c3 _
        refine runT_bind _ _ _ _ _
          (UpdateCertificateStatus_runT _ env c3 (readOnlyFrame_certCalls S)) ?_
        intro upd _
        split <;> exact runT_pure _ _ _ trivial

/-- The renewal check answers "equal" on a stored certificate that parses, names the
requested DNS name and has at least 30 days left at every clock reading. -/
theorem isSecretDataEqual_fresh (env : Env) (F : Frame) (config : Certificate)
    (secret : Secret) (certPEM : Bytes) (block : pem.Block) (cert : x509.Certificate)
    (hentry : secret.Data.get TLSCertKey = some certPEM)
    (hpem : env.pemDecode certPEM = some block)
    (hparse : env.x509ParseCertificate block.Bytes = Except.ok cert)
    (hcn : cert.Subject.CommonName = config.Spec.DNSName)
    (hrem : ∀ k, 30 * (24 * time.Hour) ≤ cert.NotAfter - env.clock k) :
    RunT F (isSecretDataEqual env config secret) (fun same => same = true) := by
  intro w hw
  obtain ⟨same, w1, hrun, hsec, _, hcalls, hiff⟩ :=
    isSecretDataEqual_eval env config secret w certPEM block cert hentry hpem hparse
  refine ⟨same, w1, hrun, F.stable w w1 hsec hw, appends_of_calls_eq hcalls, ?_⟩
  cases hs : same with
  | true => rfl
  | false =>
    rcases hiff.mp hs with h | h
    · exact absurd hcn h
    · have := hrem w.clockReads
      omega

theorem createOrUpdateSecret_fresh (env : Env) (S : List (NamespacedName × Secret))
    (config : Certificate) (secret stored : Secret) (certPEM : Bytes) (block : pem.Block)
    (cert : x509.Certificate) (hfault : ∀ k, env.fault k = none)
    (hS : S.lookup (secretKey config) = some stored)
    (hentry : stored.Data.get TLSCertKey = some certPEM)
    (hpem : env.pemDecode certPEM = some block)
    (hparse : env.x509ParseCertificate block.Bytes = Except.ok cert)
    (hcn : cert.Subject.CommonName = config.Spec.DNSName)
    (hrem : ∀ k, 30 * (24 * time.Hour) ≤ cert.NotAfter - env.clock k) :
    RunT (readOnlyFrame S) (createOrUpdateSecret env config secret)
      (fun r => r.2 = none) := by
  unfold createOrUpdateSecret
  refine runT_bind _ _ _ _ _ (GetSecret_found env S _ secret stored hfault hS) ?_
  intro got hgot
  rw [hgot]
  simp only []
  refine runT_bind _ _ _ _ _
    (isSecretDataEqual_fresh env _ config stored certPEM block cert hentry hpem hparse hcn hrem) ?_
  intro same hsame
  rw [hsame]
  exact runT_pure _ _ _ rfl

theorem certificateManager_fresh (env : Env) (S : List (NamespacedName × Secret))
    (config : Certificate) (secret stored : Secret) (certPEM : Bytes) (block : pem.Block)
    (cert : x509.Certificate) (hfault : ∀ k, env.fault k = none)
    (hS : S.lookup (secretKey config) = some stored)
    (hentry : stored.Data.get TLSCertKey = some certPEM)
    (hpem : env.pemDecode certPEM = some block)
    (hparse : env.x509ParseCertificate block.Bytes = Except.ok cert)
    (hcn : cert.Subject.CommonName = config.Spec.DNSName)
    (hrem : ∀ k, 30 * (24 * time.Hour) ≤ cert.NotAfter - env.clock k) :
    RunT (readOnlyFrame S) (certificateManager env config secret) (fun _ => True) := by
  rw [certificateManager_steps]
  unfold certificateManagerSteps
  refine runT_bind _ _ _ _ _ (GetSecret_found env S _ secret stored hfault hS) ?_
  intro got hgot
  rw [hgot]
  simp only []
  refine runT_bind _ _ _ _ _ (silent_runT _ (issueCertificate_silent env config)) ?_
  intro issued _
  split
  · exact runT_pure _ _ _ trivial
  · refine runT_bind _ _ _ _ _
      (createOrUpdateSecret_fresh env S config _ stored certPEM block cert hfault hS hentry
        hpem hparse hcn hrem) ?_
    intro res _
    split <;> exact runT_pure _ _ _ trivial

theorem reconcileFetched_fresh (env : Env) (S : List (NamespacedName × Secret))
    (config : Certificate) (stored : Secret) (certPEM : Bytes) (block : pem.Block)
    (cert : x509.Certificate) (hfault : ∀ k, env.fault k = none)
    (hS : S.lookup (secretKey config) = some stored)
    (hentry : stored.Data.get TLSCertKey = some certPEM)
    (hpem : env.pemDecode certPEM = some block)
    (hparse : env.x509ParseCertificate block.Bytes = Except.ok cert)
    (hcn : cert.Subject.CommonName = config.Spec.DNSName)
    (hrem : ∀ k, 30 * (24 * time.Hour) ≤ cert.NotAfter - env.clock k) :
    RunT (readOnlyFrame S) (reconcileFetched env config) (fun _ => True) := by
  unfold reconcileFetched
  refine runT_bind _ _ _ _ _
    (HandleFinalizer_runT _ env config (readOnlyFrame_certCalls S)) ?_
  intro fin hfin
  have hkey : secretKey fin.1 = secretKey config := by
    unfold secretKey
    rw [hfin.1, hfin.2]
  split
  · exact runT_pure _ _ _ trivial
  · split
    · exact runT_pure _ _ _ trivial
    · simp only []
      refine runT_bind _ _ _ _ _
        (certificateManager_fresh env S fin.1 emptySecret stored certPEM block cert hfault
          (by rw [hkey]; exact hS) hentry hpem hparse (by rw [hfin.1]; exact hcn) hrem) ?_
      intro managed _
      split
      · refine runT_bind _ _ _ _ _ (silent_runT _ (setConditionStatus_silent env _ _ _ _ _)) ?_
        intro c1 _
        refine runT_bind _ _ _ _ _
          (UpdateCertificateStatus_runT _ env c1 (readOnlyFrame_certCalls S)) ?_
        intro _ _
        exact runT_pure _ _ _ trivial
      · refine runT_bind _ _ _ _ _ (setCertificateStatus_readOnly env S fin.1 managed.1) ?_
        intro _ _
        exact runT_pure _ _ _ trivial

theorem issueCertificate_eval (env : Env) (config : Certificate) (w : World) (d : Int)
    (priv : PrivateKey) (sn : Nat) (sign : x509.Certificate → Bytes)
    (hval : parseCustomDuration env.fracNs config.Spec.Validity = Except.ok d)
    (hkey : env.rsaGenerateKey w.rngDraws = Except.ok priv)
    (hserial : env.randInt (w.rngDraws + 1) = Except.ok sn)
    (hsign : ∀ tmpl, env.x509CreateCertificate tmpl tmpl priv.PublicKey priv
      = Except.ok (sign tmpl)) :
    ∃ tmpl w1, issueCertificate env config w = Outcome.done (Except.ok
        (env.pemEncodeToMemory { Type' := "CERTIFICATE", Bytes := sign tmpl },
         env.pemEncodeToMemory
           { Type' := "RSA PRIVATE KEY", Bytes := env.x509MarshalPKCS1PrivateKey priv })) w1 ∧
      w1.secrets = w.secrets ∧ w1.certificates = w.certificates ∧ w1.calls = w.calls ∧
      tmpl.Subject.CommonName = config.Spec.DNSName ∧
      tmpl.DNSNames = [config.Spec.DNSName] ∧
      tmpl.NotBefore = env.clock w.clockReads ∧
      tmpl.NotAfter = env.clock w.clockReads + d := by
  simp only [issueCertificate, goM_bind_eq, rsa.GenerateKey, hkey, certificateTemplate,
    rand.Int, hserial, time.Now, hval, goM_pure_eq, hsign]
  exact ⟨_, _, rfl, rfl, rfl, rfl, rfl, rfl, rfl, rfl⟩

theorem createOrUpdateSecret_create (env : Env) (config : Certificate) (secret : Secret)
    (w : World) (hfault : ∀ k, env.fault k = none)
    (habsent : w.secrets.lookup (secretKey config) = none)
    (hs : secret.key = secretKey config) :
    ∃ w1, createOrUpdateSecret env config secret w = Outcome.done (secret, none) w1 ∧
      w1.secrets = w.secrets ++ [(secretKey config, secret)] ∧
      w1.certificates = w.certificates ∧
      w1.calls = w.calls ++ [Call.GetSecret (secretKey config), Call.CreateSecret secret] := by
  have hnf : ∀ n, apierrors.IsNotFound (notFoundError "secrets" n) = true := fun _ => rfl
  simp only [createOrUpdateSecret, goM_bind_eq, Client.GetSecret, hfault, habsent, hnf, if_true,
    Client.CreateSecret, hs, goM_pure_eq]
  exact ⟨_, rfl, rfl, rfl, by simp⟩

theorem certificateManager_first (env : Env) (config : Certificate) (secret : Secret)
    (w : World) (d : Int) (priv : PrivateKey) (sn : Nat) (sign : x509.Certificate → Bytes)
    (hfault : ∀ k, env.fault k = none)
    (habsent : w.secrets.lookup (secretKey config) = none)
    (hval : parseCustomDuration env.fracNs config.Spec.Validity = Except.ok d)
    (hkey : env.rsaGenerateKey w.rngDraws = Except.ok priv)
    (hserial : env.randInt (w.rngDraws + 1) = Except.ok sn)
    (hsign : ∀ tmpl, env.x509CreateCertificate tmpl tmpl priv.PublicKey priv
      = Except.ok (sign tmpl)) :
    ∃ tmpl created w1, certificateManager env config secret w = Outcome.done (secret, none) w1 ∧
      w1.secrets = w.secrets ++ [(secretKey config, created)] ∧
      w1.certificates = w.certificates ∧
      w1.calls = w.calls ++ [Call.GetSecret (secretKey config),
        Call.GetSecret (secretKey config), Call.CreateSecret created] ∧
      created.key = secretKey config ∧
      created.Type' = SecretTypeTLS ∧
      created.Data = some
        [(TLSCertKey, env.pemEncodeToMemory { Type' := "CERTIFICATE", Bytes := sign tmpl }),
         (TLSPrivateKeyKey, env.pemEncodeToMemory
           { Type' := "RSA PRIVATE KEY", Bytes := env.x509MarshalPKCS1PrivateKey priv })] ∧
      tmpl.Subject.CommonName = config.Spec.DNSName ∧
      tmpl.DNSNames = [config.Spec.DNSName] ∧
      tmpl.NotBefore = env.clock w.clockReads ∧
      tmpl.NotAfter = env.clock w.clockReads + d := by
  have hnf : ∀ n, apierrors.IsNotFound (notFoundError "secrets" n) = true := fun _ => rfl
  obtain ⟨tmpl, wi, hissue, hisec, hicert, hicalls, ht1, ht2, ht3, ht4⟩ :=
    issueCertificate_eval env config
      { w with calls := w.calls ++ [Call.GetSecret (secretKey config)] } d priv sn sign hval
      hkey hserial hsign
  rw [certificateManager_steps]
  unfold certificateManagerSteps
  rw [goM_bind_eq]
  simp only [Client.GetSecret, hfault, habsent, hnf, Bool.not_true, Bool.false_eq_true,
    if_false]
  rw [goM_bind_eq, hissue]
  simp only []
  generalize hown : (match controllerutil.SetControllerReference env config
      { ObjectMeta := { emptyMeta with Name := config.Spec.SecretRef.Name,
                                       Namespace := config.ObjectMeta.Namespace },
        Data := some
          [(TLSCertKey, env.pemEncodeToMemory { Type' := "CERTIFICATE", Bytes := sign tmpl }),
           (TLSPrivateKeyKey, env.pemEncodeToMemory
             { Type' := "RSA PRIVATE KEY", Bytes := env.x509MarshalPKCS1PrivateKey priv })],
        Type' := SecretTypeTLS } with
      | Except.ok s => s
      | Except.error _ => _) = owned
  have hok : owned.key = secretKey config ∧ owned.Type' = SecretTypeTLS ∧ owned.Data = some
      [(TLSCertKey, env.pemEncodeToMemory { Type' := "CERTIFICATE", Bytes := sign tmpl }),
       (TLSPrivateKeyKey, env.pemEncodeToMemory
         { Type' := "RSA PRIVATE KEY", Bytes := env.x509MarshalPKCS1PrivateKey priv })] := by
    rw [← hown]
    unfold controllerutil.SetControllerReference
    cases env.ownerReference config _ <;> exact ⟨rfl, rfl, rfl⟩
  obtain ⟨w1, hrun, hsec, hcert, hcalls⟩ :=
    createOrUpdateSecret_create env config owned wi hfault (by rw [hisec]; exact habsent) hok.1
  rw [goM_bind_eq, hrun]
  refine ⟨tmpl, owned, w1, rfl, ?_, ?_, ?_, hok.1, hok.2.1, hok.2.2, ht1, ht2, ht3, ht4⟩
  · rw [hsec, hisec]
  · rw [hcert, hicert]
  · rw [hcalls, hicalls]
    simp

theorem HandleFinalizer_live (env : Env) (config old : Certificate) (w : World)
    (hstored : w.certificates.lookup config.key = some old)
    (hfault : ∀ k, env.fault k = none)
    (hlive : metav1.IsZero config.ObjectMeta.DeletionTimestamp = true) :
    ∃ c1 w1 l, HandleFinalizer env config w = Outcome.done (c1, false, none) w1 ∧
      c1.Spec = config.Spec ∧ c1.ObjectMeta.Namespace = config.ObjectMeta.Namespace ∧
      w1.secrets = w.secrets ∧ w1.rngDraws = w.rngDraws ∧ w1.clockReads = w.clockReads ∧
      w1.calls = w.calls ++ l ∧ ∀ c ∈ l, c.isSecretWrite = false := by
  unfold HandleFinalizer
  simp only [hlive, if_true]
  by_cases hc : controllerutil.ContainsFinalizer config finalizerName = true
  · simp only [hc, Bool.not_true, Bool.false_eq_true, if_false]
    exact ⟨_, _, [], rfl, rfl, rfl, rfl, rfl, rfl, by simp, by simp⟩
  · have hc' : controllerutil.ContainsFinalizer config finalizerName = false := by
      simpa using hc
    have hspec := AddFinalizer_spec config finalizerName
    obtain ⟨w1, hrun, hcalls, hsec, hrng, hclk⟩ := UpdateCertificate_ok env
      (controllerutil.AddFinalizer config finalizerName) old w
      (by rw [AddFinalizer_key]; exact hstored) (hfault _)
    simp only [hc', Bool.not_false, if_true]
    rw [goM_bind_eq, hrun]
    refine ⟨_, w1, [Call.UpdateCertificate _], rfl, hspec.1, hspec.2, hsec, hrng, hclk, hcalls, ?_⟩
    intro c hcm
    simp at hcm
    rw [hcm]
    rfl

/-- C5: from a store with no Credential for the request, a pass in which the client and the
issuing steps succeed creates the Credential with the freshly issued certificate and key
(the only write to the credential store); a later pass for a request with the same DNS name
and credential key, run while the stored certificate parses back to the issued common name
and has at least 30 days left at every clock reading, returns, leaves the credential store
as it was and issues no create and no update on it. -/
theorem Reconcile_idempotent (env1 env2 : Env) (req : NamespacedName) (c0 : Certificate)
    (w0 : World) (d : Int) (priv : PrivateKey) (sn : Nat) (sign : x509.Certificate → Bytes)
    (hreq : w0.certificates.lookup req = some c0)
    (hown : c0.key = req)
    (hlive : metav1.IsZero c0.ObjectMeta.DeletionTimestamp = true)
    (hval : parseCustomDuration env1.fracNs c0.Spec.Validity = Except.ok d)
    (habsent : w0.secrets.lookup (secretKey c0) = none)
    (hfault1 : ∀ k, env1.fault k = none)
    (hkey : env1.rsaGenerateKey w0.rngDraws = Except.ok priv)
    (hserial : env1.randInt (w0.rngDraws + 1) = Except.ok sn)
    (hsign : ∀ tmpl, env1.x509CreateCertificate tmpl tmpl priv.PublicKey priv
      = Except.ok (sign tmpl)) :
    ∃ w1 created tmpl l1,
      Reconcile env1 req w0 = Outcome.done none w1 ∧
      w1.secrets = w0.secrets ++ [(secretKey c0, created)] ∧
      created.Type' = SecretTypeTLS ∧
      created.Data = some
        [(TLSCertKey, env1.pemEncodeToMemory { Type' := "CERTIFICATE", Bytes := sign tmpl }),
         (TLSPrivateKeyKey, env1.pemEncodeToMemory
           { Type' := "RSA PRIVATE KEY", Bytes := env1.x509MarshalPKCS1PrivateKey priv })] ∧
      tmpl.Subject.CommonName = c0.Spec.DNSName ∧
      tmpl.NotAfter - tmpl.NotBefore = d ∧
      w1.calls = w0.calls ++ l1 ∧
      Call.CreateSecret created ∈ l1 ∧
      (∀ c ∈ l1, c.isSecretWrite = true → c = Call.CreateSecret created) ∧
      ∀ (w2 : World) (block : pem.Block) (cert : x509.Certificate),
        w2.secrets = w1.secrets →
        (∀ c2, w2.certificates.lookup req = some c2 →
          c2.Spec.DNSName = c0.Spec.DNSName ∧ secretKey c2 = secretKey c0) →
        (∀ k, env2.fault k = none) →
        env2.pemDecode
          (env1.pemEncodeToMemory { Type' := "CERTIFICATE", Bytes := sign tmpl }) = some block →
        env2.x509ParseCertificate block.Bytes = Except.ok cert →
        cert.Subject.CommonName = tmpl.Subject.CommonName →
        (∀ k, 30 * (24 * time.Hour) ≤ cert.NotAfter - env2.clock k) →
        ∃ r w3 l2, Reconcile env2 req w2 = Outcome.done r w3 ∧
          w3.secrets = w2.secrets ∧
          w3.calls = w2.calls ++ l2 ∧
          ∀ c ∈ l2, c.isSecretWrite = false := by
  -- first pass
  obtain ⟨c1, wf, lf, hfin, hspec, hns, hfsec, hfrng, hfclk, hfcalls, hfl⟩ :=
    HandleFinalizer_live env1 c0 c0
      { w0 with calls := w0.calls ++ [Call.GetCertificate req] }
      (by rw [hown]; exact hreq) hfault1 hlive
  have hk1 : secretKey c1 = secretKey c0 := by
    unfold secretKey
    rw [hspec, hns]
  obtain ⟨tmpl, created, wm, hman, hmsec, _, hmcalls, hckey, hctype, hcdata, ht1, _, ht3, ht4⟩ :=
    certificateManager_first env1 c1 emptySecret wf d priv sn sign hfault1
      (by rw [hk1, hfsec]; exact habsent) (by rw [hspec]; exact hval)
      (by rw [hfrng]; exact hkey) (by rw [hfrng]; exact hserial) hsign
  obtain ⟨rs, ws, hstat, hssec, ⟨ls, hscalls, hsl⟩, _⟩ :=
    setCertificateStatus_readOnly env1 wm.secrets c1 emptySecret wm rfl
  have hssec' : ws.secrets = wm.secrets := hssec
  have hrun1 : Reconcile env1 req w0 = Outcome.done none ws := by
    rw [Reconcile_steps]
    unfold ReconcileSteps
    rw [goM_bind_eq]
    simp only [Client.GetCertificate, hfault1, hreq]
    unfold reconcileFetched
    rw [goM_bind_eq, hfin]
    simp only [Bool.false_eq_true, if_false]
    rw [goM_bind_eq, hman]
    simp only []
    rw [goM_bind_eq, hstat]
    rfl
  refine ⟨ws, created, tmpl,
    Call.GetCertificate req :: (lf ++ ([Call.GetSecret (secretKey c1),
      Call.GetSecret (secretKey c1), Call.CreateSecret created] ++ ls)),
    hrun1, ?_, hctype, hcdata, ?_, ?_, ?_, ?_, ?_, ?_⟩
  · rw [hssec', hmsec, hfsec, hk1]
  · rw [ht1, hspec]
  · rw [ht4, ht3]
    omega
  · rw [hscalls, hmcalls, hfcalls]
    simp
  · simp
  · intro c hc hw
    simp only [List.mem_cons, List.mem_append, List.mem_singleton, List.not_mem_nil,
      or_false] at hc
    rcases hc with h | h | (h | h | h) | h
    · rw [h] at hw
      simp [Call.isSecretWrite] at hw
    · rw [hfl c h] at hw
      simp at hw
    · rw [h] at hw
      simp [Call.isSecretWrite] at hw
    · rw [h] at hw
      simp [Call.isSecretWrite] at hw
    · exact h
    · rw [hsl c h] at hw
      simp at hw
  -- second pass
  · intro w2 block cert hsec2 hsame hfault2 hpem hparse hcn hrem
    have hlookup : w2.secrets.lookup (secretKey c0) = some created := by
      rw [hsec2, hssec', hmsec, hfsec, hk1]
      have hk : ∀ l : List (NamespacedName × Secret), l.lookup (secretKey c0) = none →
          (l ++ [(secretKey c0, created)]).lookup (secretKey c0) = some created := by
        intro l
        induction l with
        | nil => intro _; simp [List.lookup]
        | cons x rest ih =>
          obtain ⟨k, v⟩ := x
          intro h
          by_cases hkk : secretKey c0 = k
          · subst hkk
            simp [List.lookup] at h
          · have hb : (secretKey c0 == k) = false := by simpa using hkk
            simp only [List.lookup, hb, List.cons_append] at h ⊢
            exact ih h
      exact hk _ habsent
    rw [Reconcile_steps]
    unfold ReconcileSteps
    rw [goM_bind_eq]
    unfold Client.GetCertificate
    simp only [hfault2]
    cases hl : w2.certificates.lookup req with
    | none =>
      have hnf : ∀ n, apierrors.IsNotFound
          (notFoundError "certificates.certs.k8c.io" n) = true := fun _ => rfl
      simp only [hnf, if_true]
      refine ⟨none, { w2 with calls := w2.calls ++ [Call.GetCertificate req] },
        [Call.GetCertificate req], rfl, rfl, rfl, ?_⟩
      · intro c hc
        simp at hc
        rw [hc]
        rfl
    | some c2 =>
      simp only []
      obtain ⟨hdns, hk2⟩ := hsame c2 hl
      obtain ⟨r, w3, hrun, hI, ⟨l2, hcalls, hl2⟩, _⟩ :=
        reconcileFetched_fresh env2 w2.secrets c2 created _ block cert hfault2
          (by rw [hk2]; exact hlookup) (by rw [hcdata]; rfl) hpem hparse
          (by rw [hcn, ht1, hspec, hdns]) hrem
          { w2 with calls := w2.calls ++ [Call.GetCertificate req] } rfl
      refine ⟨r, w3, Call.GetCertificate req :: l2, hrun, hI, ?_, ?_⟩
      · rw [hcalls]
        simp
      · intro c hc
        rcases List.mem_cons.mp hc with h | h
        · rw [h]
          rfl
        · exact hl2 c h

/-! ## Duration parser: the day form -/

theorem wrapInt64_of_range (x : Int) (hlo : -(2 ^ 63) ≤ x) (hhi : x < 2 ^ 63) :
    wrapInt64 x = x := by
  unfold wrapInt64
  omega

theorem isDigit_d : isDigit 'd' = false := by decide

theorem HasSuffix_append_day (s : String) : strings.HasSuffix (s ++ "d") day = true := by
  simp [strings.HasSuffix, day, List.isSuffixOf]

theorem TrimSuffix_append_day (s : String) : strings.TrimSuffix (s ++ "d") day = s := by
  unfold strings.TrimSuffix
  rw [HasSuffix_append_day]
  simp [day]

/-- The accumulator of the digit loop never decreases. -/
theorem foldl_digits_ge (cs : List Char) (a : Nat) :
    a ≤ cs.foldl (fun a c => a * 10 + (c.toNat - 48)) a := by
  induction cs generalizing a with
  | nil => simp
  | cons c rest ih =>
    simp only [List.foldl_cons]
    have := ih (a * 10 + (c.toNat - 48))
    omega

/-- The digit loop of `ParseUint` returns a value exactly on digit sequences whose value fits
64 bits. -/
theorem parseUintLoop_ok_iff (cs : List Char) (a v : Nat) (ha : a ≤ maxUint64) :
    strconv.parseUintLoop cs a = Except.ok v ↔
      (cs.all isDigit = true ∧ cs.foldl (fun a c => a * 10 + (c.toNat - 48)) a = v ∧
        v ≤ maxUint64) := by
  induction cs generalizing a with
  | nil =>
    simp only [strconv.parseUintLoop, List.all_nil, List.foldl_nil, true_and]
    constructor
    · intro h
      injection h with h
      exact ⟨h, h ▸ ha⟩
    · rintro ⟨h, _⟩
      rw [h]
  | cons c rest ih =>
    unfold strconv.parseUintLoop
    by_cases hd : isDigit c = true
    · simp only [hd, if_true, List.all_cons, Bool.true_and, List.foldl_cons]
      have hmono := foldl_digits_ge rest (a * 10 + (c.toNat - 48))
      split
      · rename_i hcut
        constructor
        · intro h; simp at h
        · rintro ⟨_, hv, hmax⟩
          exfalso
          simp only [maxUint64] at hcut hmax
          omega
      · split
        · rename_i hov
          constructor
          · intro h; simp at h
          · rintro ⟨_, hv, hmax⟩
            exfalso
            omega
        · rename_i hcut hov
          exact ih _ (by omega)
    · have hd' : isDigit c = false := by simpa using hd
      simp only [hd', Bool.false_eq_true, if_false, List.all_cons, Bool.false_and]
      constructor
      · intro h; simp at h
      · rintro ⟨h, _⟩
        simp at h

theorem ParseUint_ok_iff (cs : List Char) (v : Nat) :
    strconv.ParseUint cs = Except.ok v ↔
      (isDecimalDigits cs = true ∧ digitsValue cs = v ∧ v ≤ maxUint64) := by
  cases cs with
  | nil => simp [strconv.ParseUint, isDecimalDigits]
  | cons c rest =>
    simp only [strconv.ParseUint]
    rw [parseUintLoop_ok_iff _ _ _ (by simp [maxUint64])]
    simp [isDecimalDigits, digitsValue]

theorem ParseInt_eq_tail (c : Char) (rest : List Char) :
    strconv.ParseInt (c :: rest) =
      parseIntTail (c == '-') (if c == '+' || c == '-' then rest else c :: rest) := rfl

theorem parseIntTail_ok_iff (neg : Bool) (body : List Char) (i : Int) :
    parseIntTail neg body = Except.ok i ↔
      (isDecimalDigits body = true ∧
        i = (if neg then -(digitsValue body : Int) else (digitsValue body : Int)) ∧
        -(2 ^ 63) ≤ i ∧ i < 2 ^ 63) := by
  unfold parseIntTail
  cases hp : strconv.ParseUint body with
  | error k =>
    have hno : ¬ (isDecimalDigits body = true ∧ digitsValue body ≤ maxUint64) := by
      intro h
      have := (ParseUint_ok_iff body (digitsValue body)).mpr ⟨h.1, rfl, h.2⟩
      rw [hp] at this
      simp at this
    have hrhs : ¬ (isDecimalDigits body = true ∧
        i = (if neg then -(digitsValue body : Int) else (digitsValue body : Int)) ∧
        -(2 ^ 63) ≤ i ∧ i < 2 ^ 63) := by
      rintro ⟨h1, h2, h3, h4⟩
      apply hno
      refine ⟨h1, ?_⟩
      simp only [maxUint64]
      cases neg <;> simp at h2 <;> omega
    cases k
    · exact ⟨fun h => by simp at h, fun h => absurd h hrhs⟩
    · exact ⟨fun h => by simp at h, fun h => absurd h hrhs⟩
  | ok un =>
    obtain ⟨hdig, hval, _⟩ := (ParseUint_ok_iff body un).mp hp
    simp only [hdig, hval, true_and]
    cases neg
    · simp only [Bool.not_false, Bool.true_and, Bool.false_and, Bool.false_eq_true, if_false,
        decide_eq_true_eq]
      split
      · constructor
        · intro h; simp at h
        · rintro ⟨h1, _, h3⟩
          omega
      · constructor
        · intro h
          injection h with h
          omega
        · rintro ⟨h1, _, _⟩
          rw [h1]
    · simp only [Bool.not_true, Bool.false_and, Bool.false_eq_true, if_false, Bool.true_and,
        decide_eq_true_eq, if_true]
      split
      · constructor
        · intro h; simp at h
        · rintro ⟨h1, h2, _⟩
          omega
      · constructor
        · intro h
          injection h with h
          omega
        · rintro ⟨h1, _, _⟩
          rw [h1]

theorem isDecimalDigits_cons (c : Char) (rest : List Char) (h : isDecimalDigits (c :: rest) = true) :
    isDigit c = true := by
  simp [isDecimalDigits] at h
  exact h.1

/-- `ParseInt` returns exactly on the texts that denote an integer of the signed 64-bit
range, and returns that integer. -/
theorem ParseInt_ok_iff (cs : List Char) (i : Int) :
    strconv.ParseInt cs = Except.ok i ↔
      (intTextValue cs = some i ∧ -(2 ^ 63) ≤ i ∧ i < 2 ^ 63) := by
  cases cs with
  | nil => simp [strconv.ParseInt, intTextValue]
  | cons c rest =>
    rw [ParseInt_eq_tail, parseIntTail_ok_iff]
    unfold intTextValue
    by_cases hplus : c = '+'
    · subst hplus
      simp only [beq_self_eq_true, Bool.true_or, if_true]
      have : ('+' == '-') = false := by decide
      simp only [this, Bool.false_eq_true, if_false]
      by_cases hd : isDecimalDigits rest = true
      · simp [hd, eq_comm]
      · simp [hd]
    · by_cases hminus : c = '-'
      · subst hminus
        have h1 : ('-' == '+') = false := by decide
        have h2 : ('-' : Char) ≠ '+' := by decide
        simp only [h1, beq_self_eq_true, Bool.or_true, if_true, h2, if_false]
        by_cases hd : isDecimalDigits rest = true
        · simp [hd, eq_comm]
        · simp [hd]
      · have h1 : (c == '+') = false := by simpa using hplus
        have h2 : (c == '-') = false := by simpa using hminus
        simp only [h1, h2, Bool.or_false, Bool.false_eq_true, if_false, hplus, hminus]
        by_cases hd : isDecimalDigits (c :: rest) = true
        · simp [hd, eq_comm]
        · simp [hd]

theorem Atoi_ok_iff (s : String) (i : Int) :
    strconv.Atoi s = Except.ok i ↔
      (intTextValue s.data = some i ∧ -(2 ^ 63) ≤ i ∧ i < 2 ^ 63) := by
  rw [← ParseInt_ok_iff]
  unfold strconv.Atoi
  cases hp : strconv.ParseInt s.data with
  | ok v => simp
  | error k => cases k <;> simp

theorem Atoi_error_iff (s : String) :
    (∃ e, strconv.Atoi s = Except.error e) ↔
      ¬ ∃ i, intTextValue s.data = some i ∧ -(2 ^ 63) ≤ i ∧ i < 2 ^ 63 := by
  constructor
  · rintro ⟨e, he⟩ ⟨i, hi⟩
    rw [(Atoi_ok_iff s i).mpr hi] at he
    simp at he
  · intro h
    cases ha : strconv.Atoi s with
    | error e => exact ⟨e, rfl⟩
    | ok i => exact absurd ⟨i, (Atoi_ok_iff s i).mp ha⟩ h

theorem digitChar_digit (m : Nat) (hm : m < 10) :
    isDigit (Nat.digitChar m) = true ∧ (Nat.digitChar m).toNat - 48 = m := by
  interval_cases m <;> exact ⟨by decide, by decide⟩

theorem toDigitsCore_value (fuel : Nat) : ∀ (n : Nat) (ds : List Char), n < fuel →
    ds.all isDigit = true →
    (Nat.toDigitsCore 10 fuel n ds).all isDigit = true ∧
    Nat.toDigitsCore 10 fuel n ds ≠ [] ∧
    (Nat.toDigitsCore 10 fuel n ds).foldl (fun a c => a * 10 + (c.toNat - 48)) 0
      = ds.foldl (fun a c => a * 10 + (c.toNat - 48)) n := by
  induction fuel with
  | zero => intro n ds h; omega
  | succ fuel ih =>
    intro n ds hn hds
    have hd := digitChar_digit (n % 10) (Nat.mod_lt _ (by decide))
    unfold Nat.toDigitsCore
    simp only []
    split
    · rename_i hzero
      refine ⟨by simp [hd.1, hds], by simp, ?_⟩
      simp only [List.foldl_cons, hd.2]
      congr 1
      omega
    · rename_i hnz
      have hlt : n / 10 < fuel := by omega
      obtain ⟨h1, h2, h3⟩ := ih (n / 10) (Nat.digitChar (n % 10) :: ds) hlt
        (by simp [hd.1, hds])
      refine ⟨h1, h2, ?_⟩
      rw [h3]
      simp only [List.foldl_cons, hd.2]
      congr 1
      omega

theorem toString_data (n : Nat) : (toString n).data = Nat.toDigitsCore 10 (n + 1) n [] := rfl

theorem intTextValue_of_digits (cs : List Char) (h : isDecimalDigits cs = true) :
    intTextValue cs = some (digitsValue cs : Int) := by
  cases cs with
  | nil => simp [isDecimalDigits] at h
  | cons c rest =>
    have hc := isDecimalDigits_cons c rest h
    have h1 : c ≠ '+' := by
      intro hh
      rw [hh] at hc
      exact absurd hc (by decide)
    have h2 : c ≠ '-' := by
      intro hh
      rw [hh] at hc
      exact absurd hc (by decide)
    simp [intTextValue, h1, h2, h]

/-- The decimal rendering of a natural number denotes that number. -/
theorem intTextValue_toString (n : Nat) : intTextValue (toString n).data = some (n : Int) := by
  obtain ⟨h1, h2, h3⟩ := toDigitsCore_value (n + 1) n [] (by omega) (by simp)
  rw [← toString_data] at h1 h2 h3
  have hdig : isDecimalDigits (toString n).data = true := by
    simp only [isDecimalDigits, Bool.and_eq_true, Bool.not_eq_true', h1, and_true]
    cases hh : (toString n).data with
    | nil => exact absurd hh h2
    | cons _ _ => rfl
  rw [intTextValue_of_digits _ hdig]
  simp only [digitsValue, h3, List.foldl_nil]

/-- The day form on a day count that `Atoi` accepts: the two int64 multiplications. -/
theorem parseCustomDuration_day_form (fracNs : Nat → Nat → Nat → Nat) (p : String) (v : Int)
    (hv : intTextValue p.data = some v) (hlo : -(2 ^ 63) ≤ v) (hhi : v < 2 ^ 63) :
    parseCustomDuration fracNs (p ++ "d")
      = Except.ok (wrapInt64 (wrapInt64 (v * 24) * time.Hour)) := by
  unfold parseCustomDuration
  rw [HasSuffix_append_day, TrimSuffix_append_day]
  simp only [if_true]
  rw [(Atoi_ok_iff p v).mpr ⟨hv, hlo, hhi⟩]

/-- C3 (amended): for every day count `n` up to 106751, written in decimal, the day form
parses and returns exactly `n * 24` hours (the largest count whose duration fits the signed
64-bit nanosecond range is 106751). -/
theorem parseCustomDuration_days (fracNs : Nat → Nat → Nat → Nat) (n : Nat)
    (hn : n ≤ 106751) :
    parseCustomDuration fracNs (toString n ++ "d") = Except.ok ((n : Int) * (24 * time.Hour)) ∧
    -(2 ^ 63) ≤ (n : Int) * (24 * time.Hour) ∧ (n : Int) * (24 * time.Hour) < 2 ^ 63 := by
  have h := parseCustomDuration_day_form fracNs (toString n) (n : Int)
    (intTextValue_toString n) (by omega) (by omega)
  rw [h]
  have h1 : wrapInt64 ((n : Int) * 24) = (n : Int) * 24 :=
    wrapInt64_of_range _ (by omega) (by omega)
  rw [h1]
  simp only [time.Hour]
  have h2 : wrapInt64 ((n : Int) * 24 * 3600000000000) = (n : Int) * 24 * 3600000000000 :=
    wrapInt64_of_range _ (by omega) (by omega)
  rw [h2]
  refine ⟨?_, by omega, by omega⟩
  have h3 : (n : Int) * 24 * 3600000000000 = (n : Int) * (24 * 3600000000000) := by omega
  rw [h3]

/-! ## Duration parser: the standard form -/

theorem leadingInt_spec (s : List Char) : ∀ (x v : Nat) (s1 : List Char),
    time.leadingInt s x = some (v, s1) →
    ∃ pre, s = pre ++ s1 ∧ pre.all isDigit = true ∧ ∀ c r, s1 = c :: r → isDigit c = false := by
  induction s with
  | nil =>
    intro x v s1 h
    simp [time.leadingInt] at h
    exact ⟨[], by simp [h.2], rfl, by intro c r hh; rw [h.2] at hh; simp at hh⟩
  | cons c cs ih =>
    intro x v s1 h
    unfold time.leadingInt at h
    by_cases hd : isDigit c = true
    · simp only [hd, if_true] at h
      split at h
      · simp at h
      · split at h
        · simp at h
        · obtain ⟨pre, hpre, hall, hhead⟩ := ih _ v s1 h
          exact ⟨c :: pre, by simp [hpre], by simp [hd, hall], hhead⟩
    · have hd' : isDigit c = false := by simpa using hd
      simp only [hd', Bool.false_eq_true, if_false] at h
      injection h with h
      injection h with h1 h2
      refine ⟨[], by simp [h2.symm], rfl, ?_⟩
      intro c1 r hh
      rw [← h2] at hh
      injection hh with hh1 _
      rw [← hh1]
      exact hd'

theorem leadingFraction_spec (s : List Char) : ∀ (x scale : Nat) (ov : Bool),
    ∃ pre, s = pre ++ (time.leadingFraction s x scale ov).2.2 ∧ pre.all isDigit = true ∧
      ∀ c r, (time.leadingFraction s x scale ov).2.2 = c :: r → isDigit c = false := by
  induction s with
  | nil =>
    intro x scale ov
    exact ⟨[], by simp [time.leadingFraction], rfl, by simp [time.leadingFraction]⟩
  | cons c cs ih =>
    intro x scale ov
    unfold time.leadingFraction
    by_cases hd : isDigit c = true
    · simp only [hd, if_true]
      split
      · obtain ⟨pre, hpre, hall, hhead⟩ := ih x scale true
        exact ⟨c :: pre, by rw [List.cons_append, ← hpre], by simp [hd, hall], hhead⟩
      · split
        · obtain ⟨pre, hpre, hall, hhead⟩ := ih x scale true
          exact ⟨c :: pre, by rw [List.cons_append, ← hpre], by simp [hd, hall], hhead⟩
        · split
          · obtain ⟨pre, hpre, hall, hhead⟩ := ih x scale true
            exact ⟨c :: pre, by rw [List.cons_append, ← hpre], by simp [hd, hall], hhead⟩
          · obtain ⟨pre, hpre, hall, hhead⟩ := ih (x * 10 + (c.toNat - 48)) (scale * 10) false
            exact ⟨c :: pre, by rw [List.cons_append, ← hpre], by simp [hd, hall], hhead⟩
    · have hd' : isDigit c = false := by simpa using hd
      simp only [hd', Bool.false_eq_true, if_false]
      refine ⟨[], by simp, rfl, ?_⟩
      intro c1 r hh
      injection hh with hh1 _
      rw [← hh1]
      exact hd'

/-- Shape of a successful round of the duration loop: digits and at most one period, then a
unit of the unit table, then the rest, which does not start with a unit character. -/
theorem parseTerm_ok (fracNs : Nat → Nat → Nat → Nat) (orig : String) (s : List Char)
    (d d1 : Nat) (rest : List Char)
    (h : time.parseTerm fracNs orig s d = Except.ok (d1, rest)) :
    ∃ pre u, s = pre ++ (u ++ rest) ∧ u ≠ [] ∧
      (time.unitMap.lookup (String.mk u)).isSome = true ∧
      (∀ c ∈ pre, isDigit c = true ∨ c = '.') := by
  unfold time.parseTerm at h
  cases s with
  | nil => simp at h
  | cons c cs =>
    simp only [] at h
    split at h
    · simp at h
    · split at h
      · simp at h
      · rename_i v s1 hli
        obtain ⟨pre1, hpre1, hall1, _⟩ := leadingInt_spec _ _ _ _ hli
        generalize hfr : (match s1 with
          | [] => ((0 : Nat), (1 : Nat), s1, false)
          | c1 :: r1 =>
            if (c1 == '.') = true then
              ((time.leadingFraction r1 0 1 false).1, (time.leadingFraction r1 0 1 false).2.1,
                (time.leadingFraction r1 0 1 false).2.2,
                r1.length != (time.leadingFraction r1 0 1 false).2.2.length)
            else (0, 1, s1, false)) = fr at h
        have hs2 : ∃ pre2, s1 = pre2 ++ fr.2.2.1 ∧ ∀ c ∈ pre2, isDigit c = true ∨ c = '.' := by
          rw [← hfr]
          cases s1 with
          | nil => exact ⟨[], rfl, by simp⟩
          | cons c1 r1 =>
            simp only []
            split
            · rename_i hdot
              obtain ⟨pre, hpre, hall, _⟩ := leadingFraction_spec r1 0 1 false
              refine ⟨c1 :: pre, by simp only [List.cons_append]; rw [← hpre], ?_⟩
              intro x hx
              rcases List.mem_cons.mp hx with hx | hx
              · right
                rw [hx]
                simpa using hdot
              · left
                exact (List.all_eq_true.mp hall) x hx
            · exact ⟨[], rfl, by simp⟩
        obtain ⟨pre2, hpre2, hall2⟩ := hs2
        split at h
        · simp at h
        · split at h
          · simp at h
          · rename_i hu
            split at h
            · simp at h
            · rename_i unit hlook
              have hrest : List.dropWhile time.isUnitChar fr.2.2.1 = rest := by
                split_ifs at h <;> first
                  | (simp at h; done)
                  | (injection h with h; injection h with _ h2)
              refine ⟨pre1 ++ pre2, fr.2.2.1.takeWhile time.isUnitChar, ?_, ?_, ?_, ?_⟩
              · rw [← hrest, List.takeWhile_append_dropWhile, List.append_assoc, ← hpre2,
                  ← hpre1]
              · intro hnil
                rw [hnil] at hu
                simp at hu
              · rw [hlook]
                rfl
              · intro x hx
                rcases List.mem_append.mp hx with hx | hx
                · left
                  exact (List.all_eq_true.mp hall1) x hx
                · exact hall2 x hx

theorem parseTerm_shorter (fracNs : Nat → Nat → Nat → Nat) (orig : String) (s : List Char)
    (d d1 : Nat) (rest : List Char)
    (h : time.parseTerm fracNs orig s d = Except.ok (d1, rest)) : rest.length < s.length := by
  obtain ⟨pre, u, hs, hu, _, _⟩ := parseTerm_ok fracNs orig s d d1 rest h
  rw [hs]
  simp only [List.length_append]
  have : 0 < u.length := List.length_pos.mpr hu
  omega

/-- The fuel handed to the loop by `time.ParseDuration` is never used up. -/
theorem parseLoop_fuel (fracNs : Nat → Nat → Nat → Nat) (orig : String) (fuel : Nat) :
    ∀ (s : List Char) (d : Nat), s.length < fuel →
      time.parseLoop fracNs orig fuel s d ≠ none := by
  induction fuel with
  | zero => intro s d h; omega
  | succ fuel ih =>
    intro s d hlen
    unfold time.parseLoop
    cases s with
    | nil => simp
    | cons c cs =>
      simp only []
      cases hp : time.parseTerm fracNs orig (c :: cs) d with
      | error e => simp
      | ok r =>
        obtain ⟨d1, rest⟩ := r
        simp only []
        have := parseTerm_shorter fracNs orig (c :: cs) d d1 rest hp
        exact ih rest d1 (by omega)

/-- The loop of `time.ParseDuration` finishes within the fuel it is given. -/
theorem ParseDuration_loop_finishes (fracNs : Nat → Nat → Nat → Nat) (orig : String)
    (body : List Char) : time.parseLoop fracNs orig (body.length + 1) body 0 ≠ none :=
  parseLoop_fuel fracNs orig (body.length + 1) body 0 (by omega)

theorem unitMap_key (k : String) (h : (time.unitMap.lookup k).isSome = true) :
    k = "ns" ∨ k = "us" ∨ k = "µs" ∨ k = "μs" ∨ k = "ms" ∨ k = "s" ∨ k = "m" ∨ k = "h" := by
  cases hl : time.unitMap.lookup k with
  | none => rw [hl] at h; simp at h
  | some v =>
    have hm := lookup_mem k v _ hl
    simp only [time.unitMap, List.mem_cons, Prod.mk.injEq, List.mem_singleton,
      List.not_mem_nil, or_false] at hm
    rcases hm with h | h | h | h | h | h | h | h
    · exact Or.inl h.1
    · exact Or.inr (Or.inl h.1)
    · exact Or.inr (Or.inr (Or.inl h.1))
    · exact Or.inr (Or.inr (Or.inr (Or.inl h.1)))
    · exact Or.inr (Or.inr (Or.inr (Or.inr (Or.inl h.1))))
    · exact Or.inr (Or.inr (Or.inr (Or.inr (Or.inr (Or.inl h.1)))))
    · exact Or.inr (Or.inr (Or.inr (Or.inr (Or.inr (Or.inr (Or.inl h.1))))))
    · exact Or.inr (Or.inr (Or.inr (Or.inr (Or.inr (Or.inr (Or.inr h.1))))))

theorem unitMap_key_last (u : List Char) (h : (time.unitMap.lookup (String.mk u)).isSome = true) :
    u.getLast? ≠ some 'd' := by
  have hk := unitMap_key _ h
  have hu : ∀ t : String, String.mk u = t → u = t.data := fun t ht => by rw [← ht]
  rcases hk with h | h | h | h | h | h | h | h <;> rw [hu _ h] <;> decide

theorem getLast?_append_ne_nil {α : Type} (a b : List α) (hb : b ≠ []) :
    (a ++ b).getLast? = b.getLast? := by
  rw [List.getLast?_append]
  cases hbl : b.getLast? with
  | none => exact absurd (List.getLast?_eq_none_iff.mp hbl) hb
  | some x => rfl

/-- A successful round on a text that ends in "d" leaves a rest that ends in "d". -/
theorem parseTerm_ends_d (fracNs : Nat → Nat → Nat → Nat) (orig : String) (s : List Char)
    (d d1 : Nat) (rest : List Char) (hs : s.getLast? = some 'd')
    (h : time.parseTerm fracNs orig s d = Except.ok (d1, rest)) :
    rest.getLast? = some 'd' := by
  obtain ⟨pre, u, hsplit, hu, hlook, _⟩ := parseTerm_ok fracNs orig s d d1 rest h
  by_cases hr : rest = []
  · exfalso
    rw [hsplit, hr, List.append_nil, getLast?_append_ne_nil _ _ hu] at hs
    exact unitMap_key_last u hlook hs
  · rw [hsplit, ← List.append_assoc, getLast?_append_ne_nil _ _ hr] at hs
    exact hs

theorem parseLoop_ends_d (fracNs : Nat → Nat → Nat → Nat) (orig : String) (fuel : Nat) :
    ∀ (s : List Char) (d : Nat), s.getLast? = some 'd' →
      ∀ v, time.parseLoop fracNs orig fuel s d ≠ some (Except.ok v) := by
  induction fuel with
  | zero =>
    intro s d _ v
    simp [time.parseLoop]
  | succ fuel ih =>
    intro s d hs v
    unfold time.parseLoop
    cases s with
    | nil => simp at hs
    | cons c cs =>
      simp only []
      cases hp : time.parseTerm fracNs orig (c :: cs) d with
      | error e => simp
      | ok r =>
        obtain ⟨d1, rest⟩ := r
        simp only []
        exact ih rest d1 (parseTerm_ends_d fracNs orig (c :: cs) d d1 rest hs hp) v

/-- The standard duration parser rejects every text that ends in "d". -/
theorem ParseDuration_ends_d (fracNs : Nat → Nat → Nat → Nat) (text : String)
    (hs : text.data.getLast? = some 'd') :
    ∃ e, time.ParseDuration fracNs text = Except.error e := by
  unfold time.ParseDuration
  cases hdata : text.data with
  | nil => rw [hdata] at hs; simp at hs
  | cons c cs =>
    simp only []
    generalize hbody : (if (c == '-' || c == '+') = true then cs else c :: cs) = body
    have hlast : body.getLast? = some 'd' := by
      rw [← hbody]
      rw [hdata] at hs
      split
      · rename_i hsign
        cases cs with
        | nil =>
          simp at hs
          rw [hs] at hsign
          exact absurd hsign (by decide)
        | cons c2 cs2 =>
          rw [show c :: c2 :: cs2 = [c] ++ (c2 :: cs2) from rfl,
            getLast?_append_ne_nil _ _ (by simp)] at hs
          exact hs
      · exact hs
    have h0 : (body == ['0']) = false := by
      cases hb : body == ['0'] with
      | false => rfl
      | true =>
        have : body = ['0'] := by simpa using hb
        rw [this] at hlast
        exact absurd hlast (by decide)
    have hne : (body == []) = false := by
      cases hb : body == [] with
      | false => rfl
      | true =>
        have : body = [] := by simpa using hb
        rw [this] at hlast
        simp at hlast
    simp only [h0, hne, Bool.false_eq_true, if_false]
    cases hloop : time.parseLoop fracNs text (body.length + 1) body 0 with
    | none => exact ⟨_, rfl⟩
    | some r =>
      cases r with
      | error e => exact ⟨_, rfl⟩
      | ok v => exact absurd hloop (parseLoop_ends_d fracNs text _ body 0 hlast v)

/-- Without a period in the text the fractional step is never consulted. -/
theorem parseTerm_nodot (f1 f2 : Nat → Nat → Nat → Nat) (orig : String) (s : List Char)
    (d : Nat) (hdot : '.' ∉ s) :
    time.parseTerm f1 orig s d = time.parseTerm f2 orig s d := by
  unfold time.parseTerm
  cases s with
  | nil => rfl
  | cons c cs =>
    simp only []
    split
    · rfl
    · cases hli : time.leadingInt (c :: cs) 0 with
      | none => rfl
      | some r =>
        obtain ⟨v, s1⟩ := r
        obtain ⟨pre, hpre, _, _⟩ := leadingInt_spec _ _ _ _ hli
        have hdot1 : '.' ∉ s1 := by
          intro hm
          apply hdot
          rw [hpre]
          exact List.mem_append_right _ hm
        cases s1 with
        | nil => simp
        | cons c1 r1 =>
          have hc1 : (c1 == '.') = false := by
            cases hb : c1 == '.' with
            | false => rfl
            | true =>
              exfalso
              apply hdot1
              have : c1 = '.' := by simpa using hb
              rw [this]
              exact List.mem_cons_self _ _
          simp [hc1]

theorem parseLoop_nodot (f1 f2 : Nat → Nat → Nat → Nat) (orig : String) (fuel : Nat) :
    ∀ (s : List Char) (d : Nat), '.' ∉ s →
      time.parseLoop f1 orig fuel s d = time.parseLoop f2 orig fuel s d := by
  induction fuel with
  | zero => intro s d _; rfl
  | succ fuel ih =>
    intro s d hdot
    unfold time.parseLoop
    cases s with
    | nil => rfl
    | cons c cs =>
      simp only []
      rw [parseTerm_nodot f1 f2 orig (c :: cs) d hdot]
      cases hp : time.parseTerm f2 orig (c :: cs) d with
      | error e => rfl
      | ok r =>
        obtain ⟨d1, rest⟩ := r
        simp only []
        obtain ⟨pre, u, hs, _, _, _⟩ := parseTerm_ok f2 orig (c :: cs) d d1 rest hp
        apply ih
        intro hm
        apply hdot
        rw [hs]
        exact List.mem_append_right _ (List.mem_append_right _ hm)

theorem ParseDuration_nodot (f1 f2 : Nat → Nat → Nat → Nat) (text : String)
    (hdot : '.' ∉ text.data) :
    time.ParseDuration f1 text = time.ParseDuration f2 text := by
  unfold time.ParseDuration
  cases hdata : text.data with
  | nil => rfl
  | cons c cs =>
    simp only []
    rw [hdata] at hdot
    have hbody : '.' ∉ (if (c == '-' || c == '+') = true then cs else c :: cs) := by
      split
      · intro hm
        exact hdot (List.mem_cons_of_mem _ hm)
      · exact hdot
    rw [parseLoop_nodot f1 f2 text _ _ 0 hbody]

theorem HasSuffix_day_iff (text : String) :
    strings.HasSuffix text day = true ↔ ∃ p : String, text = p ++ "d" := by
  constructor
  · intro h
    have hsuf : ['d'] <:+ text.data := by
      simpa [strings.HasSuffix, day] using h
    obtain ⟨p, hp⟩ := hsuf
    refine ⟨String.mk p, ?_⟩
    apply String.ext
    simp [← hp]
  · rintro ⟨p, hp⟩
    rw [hp]
    exact HasSuffix_append_day p

theorem append_day_inj (p q : String) (h : p ++ "d" = q ++ "d") : p = q := by
  apply String.ext
  have := congrArg String.data h
  simpa using this

theorem append_day_last (p : String) : (p ++ "d").data.getLast? = some 'd' := by
  simp

/-- When the day form is selected, the outcome is decided by `Atoi` on the prefix. -/
theorem parseFails_day_iff (fracNs : Nat → Nat → Nat → Nat) (p : String) :
    parseFails fracNs (p ++ "d") ↔
      ¬ ∃ i, intTextValue p.data = some i ∧ -(2 ^ 63) ≤ i ∧ i < 2 ^ 63 := by
  rw [← Atoi_error_iff]
  unfold parseFails parseCustomDuration
  rw [HasSuffix_append_day, TrimSuffix_append_day]
  simp only [if_true]
  cases strconv.Atoi p with
  | error e => simp
  | ok v => simp

theorem parseFails_iff_aux (fracNs : Nat → Nat → Nat → Nat) (text : String) :
    parseFails fracNs text ↔
      (¬ isInt64DayCountText text ∧ ¬ isStandardDuration fracNs text) := by
  by_cases hsuf : strings.HasSuffix text day = true
  · obtain ⟨p, hp⟩ := (HasSuffix_day_iff text).mp hsuf
    subst hp
    rw [parseFails_day_iff]
    have hstd : ¬ isStandardDuration fracNs (p ++ "d") := by
      rintro ⟨d, hd⟩
      obtain ⟨e, he⟩ := ParseDuration_ends_d fracNs (p ++ "d") (append_day_last p)
      rw [hd] at he
      simp at he
    constructor
    · intro h
      refine ⟨?_, hstd⟩
      rintro ⟨q, hq, v, hv⟩
      have := append_day_inj p q hq
      subst this
      exact h ⟨v, hv⟩
    · rintro ⟨h, _⟩ ⟨i, hi⟩
      exact h ⟨p, rfl, i, hi⟩
  · have hsuf' : strings.HasSuffix text day = false := by simpa using hsuf
    have hday : ¬ isInt64DayCountText text := by
      rintro ⟨p, hp, _⟩
      exact hsuf ((HasSuffix_day_iff text).mpr ⟨p, hp⟩)
    unfold parseFails parseCustomDuration isStandardDuration
    simp only [hsuf', Bool.false_eq_true, if_false]
    constructor
    · rintro ⟨e, he⟩
      refine ⟨hday, ?_⟩
      rintro ⟨d, hd⟩
      rw [hd] at he
      simp at he
    · rintro ⟨_, h⟩
      cases hp : time.ParseDuration fracNs text with
      | error e => exact ⟨e, rfl⟩
      | ok d => exact absurd ⟨d, hp⟩ h

/-- C4 (amended): the duration parser fails exactly on the texts that are neither a day
count fitting a signed 64-bit integer followed by "d" nor a literal the standard duration
parser accepts; a text not ending in "d" gets exactly the standard parser's result ("72h" is
72 hours, "notaduration" fails); a text ending in "d" whose prefix is not an integer fails
("d", "1.5d"). -/
theorem parseCustomDuration_fails_iff (fracNs : Nat → Nat → Nat → Nat) (text : String) :
    (parseFails fracNs text ↔
      (¬ isInt64DayCountText text ∧ ¬ isStandardDuration fracNs text)) ∧
    (strings.HasSuffix text day = false →
      parseCustomDuration fracNs text = time.ParseDuration fracNs text) ∧
    (∀ p : String, text = p ++ "d" → intTextValue p.data = none → parseFails fracNs text) ∧
    parseCustomDuration fracNs "72h" = Except.ok (72 * time.Hour) ∧
    parseFails fracNs "notaduration" ∧
    parseFails fracNs "d" ∧
    parseFails fracNs "1.5d" := by
  have hthird : ∀ (t p : String), t = p ++ "d" → intTextValue p.data = none →
      parseFails fracNs t := by
    intro t p hp hnone
    rw [hp, parseFails_day_iff]
    rintro ⟨i, hi, _⟩
    rw [hnone] at hi
    simp at hi
  refine ⟨parseFails_iff_aux fracNs text, ?_, hthird text, ?_, ?_, ?_, ?_⟩
  · intro h
    unfold parseCustomDuration
    simp only [h, Bool.false_eq_true, if_false]
  · have h1 : strings.HasSuffix "72h" day = false := by decide
    unfold parseCustomDuration
    simp only [h1, Bool.false_eq_true, if_false]
    rw [ParseDuration_nodot fracNs (fun _ _ _ => 0) "72h" (by decide)]
    decide
  · have h1 : strings.HasSuffix "notaduration" day = false := by decide
    unfold parseFails parseCustomDuration
    simp only [h1, Bool.false_eq_true, if_false]
    rw [ParseDuration_nodot fracNs (fun _ _ _ => 0) "notaduration" (by decide)]
    exact ⟨time.invalidDuration "notaduration", by decide⟩
  · exact hthird "d" "" (by decide) (by decide)
  · exact hthird "1.5d" "1.5" (by decide) (by decide)

/-! ## Re-issue over a malformed Credential -/

theorem assocSet_lookup {α β : Type} [DecidableEq α] (key : α) (v : β) (l : List (α × β)) :
    (assocSet key v l).lookup key = some v := by
  induction l with
  | nil => simp [assocSet, List.lookup]
  | cons x rest ih =>
    obtain ⟨k, y⟩ := x
    unfold assocSet
    by_cases hk : k = key
    · simp [hk, List.lookup]
    · have h1 : (k == key) = false := by simpa using hk
      have h2 : (key == k) = false := by simpa using fun h : key = k => hk h.symm
      simp only [h1, Bool.false_eq_true, if_false, List.lookup, h2]
      exact ih

theorem assocSet_lookup_ne {α β : Type} [DecidableEq α] (key k : α) (v : β)
    (l : List (α × β)) (h : k ≠ key) :
    (assocSet key v l).lookup k = l.lookup k := by
  induction l with
  | nil =>
    have h1 : (k == key) = false := by simpa using h
    simp [assocSet, List.lookup, h1]
  | cons x rest ih =>
    obtain ⟨k1, y⟩ := x
    unfold assocSet
    by_cases hk : k1 = key
    · have h1 : (k == key) = false := by simpa using h
      have h2 : (k == k1) = false := by rw [hk]; exact h1
      simp [hk, List.lookup, h1]
    · have h1 : (k1 == key) = false := by simpa using hk
      simp only [h1, Bool.false_eq_true, if_false, List.lookup]
      rw [ih]

/-- The renewal check asks for renewal when the certificate entry is missing, is not PEM,
or does not parse. -/
theorem isSecretDataEqual_malformed (env : Env) (config : Certificate) (secret : Secret)
    (w : World)
    (hbad : secret.Data.get TLSCertKey = none ∨
      (∃ certPEM, secret.Data.get TLSCertKey = some certPEM ∧ env.pemDecode certPEM = none) ∨
      (∃ certPEM block e, secret.Data.get TLSCertKey = some certPEM ∧
        env.pemDecode certPEM = some block ∧
        env.x509ParseCertificate block.Bytes = Except.error e)) :
    isSecretDataEqual env config secret w = Outcome.done false w := by
  unfold isSecretDataEqual
  rcases hbad with h | ⟨certPEM, h1, h2⟩ | ⟨certPEM, block, e, h1, h2, h3⟩
  · simp only [h]
    rfl
  · simp only [h1, h2]
    rfl
  · simp only [h1, h2, h3]
    rfl

theorem issueCertificate_rng (env : Env) (config : Certificate) (w w1 : World) (d : Int)
    (priv : PrivateKey) (sn : Nat) (sign : x509.Certificate → Bytes)
    (r : Except GoError (Bytes × Bytes))
    (hval : parseCustomDuration env.fracNs config.Spec.Validity = Except.ok d)
    (hkey : env.rsaGenerateKey w.rngDraws = Except.ok priv)
    (hserial : env.randInt (w.rngDraws + 1) = Except.ok sn)
    (hsign : ∀ tmpl, env.x509CreateCertificate tmpl tmpl priv.PublicKey priv
      = Except.ok (sign tmpl))
    (h : issueCertificate env config w = Outcome.done r w1) :
    w1.rngDraws = w.rngDraws + 2 := by
  simp only [issueCertificate, goM_bind_eq, rsa.GenerateKey, hkey, certificateTemplate,
    rand.Int, hserial, time.Now, hval, goM_pure_eq, hsign] at h
  injection h with _ h
  rw [← h]

theorem renewCertificate_eval (env : Env) (config : Certificate) (secret old : Secret)
    (w : World) (m : List (String × Bytes)) (d : Int) (priv : PrivateKey) (sn : Nat)
    (sign : x509.Certificate → Bytes)
    (hfault : ∀ k, env.fault k = none)
    (hS : w.secrets.lookup secret.key = some old)
    (hdata : secret.Data = some m)
    (hval : parseCustomDuration env.fracNs config.Spec.Validity = Except.ok d)
    (hkey : env.rsaGenerateKey w.rngDraws = Except.ok priv)
    (hserial : env.randInt (w.rngDraws + 1) = Except.ok sn)
    (hsign : ∀ tmpl, env.x509CreateCertificate tmpl tmpl priv.PublicKey priv
      = Except.ok (sign tmpl)) :
    ∃ tmpl updated w1, renewCertificate env config secret w = Outcome.done (updated, none) w1 ∧
      w1.secrets = assocSet secret.key updated w.secrets ∧
      w1.calls = w.calls ++ [Call.UpdateSecret updated] ∧
      updated.ObjectMeta = secret.ObjectMeta ∧
      updated.Data.get TLSCertKey
        = some (env.pemEncodeToMemory { Type' := "CERTIFICATE", Bytes := sign tmpl }) ∧
      updated.Data.get TLSPrivateKeyKey
        = some (env.pemEncodeToMemory
            { Type' := "RSA PRIVATE KEY", Bytes := env.x509MarshalPKCS1PrivateKey priv }) ∧
      tmpl.Subject.CommonName = config.Spec.DNSName ∧
      tmpl.NotAfter - tmpl.NotBefore = d := by
  obtain ⟨tmpl, wj, hissue, hjsec, _, hjcalls, ht1, _, ht3, ht4⟩ :=
    issueCertificate_eval env config w d priv sn sign hval hkey hserial hsign
  rw [renewCertificate_steps]
  unfold renewCertificateSteps
  rw [goM_bind_eq, hissue]
  simp only [hdata, ByteMap.set]
  rw [goM_bind_eq]
  have hk : ∀ dat : ByteMap, ({ secret with Data := dat } : Secret).key = secret.key :=
    fun _ => rfl
  simp only [Client.UpdateSecret, hfault, hk, hjsec, hS, goM_pure_eq]
  refine ⟨tmpl, _, _, rfl, rfl, ?_, rfl, ?_, ?_, ht1, ?_⟩
  · simp only [hjcalls]
  · simp only [ByteMap.get]
    rw [assocSet_lookup_ne TLSPrivateKeyKey TLSCertKey _ _ (by decide)]
    exact assocSet_lookup _ _ _
  · simp only [ByteMap.get]
    exact assocSet_lookup _ _ _
  · rw [ht4, ht3]
    omega

/-- On a stored Credential whose data map is not nil and whose certificate entry is missing
or malformed, a pass in which the client and the issuing steps succeed re-issues: it updates
the Credential in place with a new certificate and key, and returns no error. -/
theorem certificateManager_reissues_malformed (env : Env) (config : Certificate)
    (secret stored : Secret) (w : World) (m : List (String × Bytes)) (d : Int)
    (priv1 priv2 : PrivateKey) (sn1 sn2 : Nat) (sign1 sign2 : x509.Certificate → Bytes)
    (hfault : ∀ k, env.fault k = none)
    (hS : w.secrets.lookup (secretKey config) = some stored)
    (hkeyed : stored.key = secretKey config)
    (hdata : stored.Data = some m)
    (hbad : stored.Data.get TLSCertKey = none ∨
      (∃ certPEM, stored.Data.get TLSCertKey = some certPEM ∧ env.pemDecode certPEM = none) ∨
      (∃ certPEM block e, stored.Data.get TLSCertKey = some certPEM ∧
        env.pemDecode certPEM = some block ∧
        env.x509ParseCertificate block.Bytes = Except.error e))
    (hval : parseCustomDuration env.fracNs config.Spec.Validity = Except.ok d)
    (hkey1 : env.rsaGenerateKey w.rngDraws = Except.ok priv1)
    (hserial1 : env.randInt (w.rngDraws + 1) = Except.ok sn1)
    (hsign1 : ∀ tmpl, env.x509CreateCertificate tmpl tmpl priv1.PublicKey priv1
      = Except.ok (sign1 tmpl))
    (hkey2 : env.rsaGenerateKey (w.rngDraws + 2) = Except.ok priv2)
    (hserial2 : env.randInt (w.rngDraws + 3) = Except.ok sn2)
    (hsign2 : ∀ tmpl, env.x509CreateCertificate tmpl tmpl priv2.PublicKey priv2
      = Except.ok (sign2 tmpl)) :
    ∃ tmpl updated w1 s, certificateManager env config secret w = Outcome.done (s, none) w1 ∧
      w1.secrets.lookup (secretKey config) = some updated ∧
      updated.ObjectMeta = stored.ObjectMeta ∧
      updated.Data.get TLSCertKey
        = some (env.pemEncodeToMemory { Type' := "CERTIFICATE", Bytes := sign2 tmpl }) ∧
      updated.Data.get TLSPrivateKeyKey
        = some (env.pemEncodeToMemory
            { Type' := "RSA PRIVATE KEY", Bytes := env.x509MarshalPKCS1PrivateKey priv2 }) ∧
      tmpl.Subject.CommonName = config.Spec.DNSName ∧
      tmpl.NotAfter - tmpl.NotBefore = d ∧
      w1.calls = w.calls ++ [Call.GetSecret (secretKey config),
        Call.GetSecret (secretKey config), Call.UpdateSecret updated] := by
  obtain ⟨tmpl1, wi, hissue1, hisec, _, hicalls, _, _, _, _⟩ :=
    issueCertificate_eval env config
      { w with calls := w.calls ++ [Call.GetSecret (secretKey config)] } d priv1 sn1 sign1
      hval hkey1 hserial1 hsign1
  have hirng : wi.rngDraws = w.rngDraws + 2 :=
    issueCertificate_rng env config
      { w with calls := w.calls ++ [Call.GetSecret (secretKey config)] } wi d priv1 sn1 sign1 _
      hval hkey1 hserial1 hsign1 hissue1
  have hisec' : wi.secrets = w.secrets := hisec
  have hicalls' : wi.calls = w.calls ++ [Call.GetSecret (secretKey config)] := hicalls
  obtain ⟨tmpl, updated, wr, hrenew, hrsec, hrcalls, hmeta, hcrt, hkeyd, ht1, hdur⟩ :=
    renewCertificate_eval env config stored stored
      { wi with calls := wi.calls ++ [Call.GetSecret (secretKey config)] } m d priv2 sn2 sign2
      hfault (by rw [hkeyed]; exact hisec' ▸ hS) hdata hval
      (by rw [show ({ wi with calls := wi.calls ++ [Call.GetSecret (secretKey config)] }
        : World).rngDraws = wi.rngDraws from rfl, hirng]; exact hkey2)
      (by rw [show ({ wi with calls := wi.calls ++ [Call.GetSecret (secretKey config)] }
        : World).rngDraws = wi.rngDraws from rfl, hirng]; exact hserial2) hsign2
  have hcous : ∀ obj, createOrUpdateSecret env config obj wi = Outcome.done (updated, none) wr := by
    intro obj
    unfold createOrUpdateSecret
    rw [goM_bind_eq]
    have hget : Client.GetSecret env (secretKey config) obj wi
        = Outcome.done (stored, none)
            { wi with calls := wi.calls ++ [Call.GetSecret (secretKey config)] } := by
      simp only [Client.GetSecret, hfault, hisec', hS]
    rw [hget]
    simp only []
    rw [goM_bind_eq, isSecretDataEqual_malformed env config stored _ hbad]
    simp only [Bool.not_false, if_true]
    rw [goM_bind_eq, hrenew]
    rfl
  rw [certificateManager_steps]
  unfold certificateManagerSteps
  rw [goM_bind_eq]
  simp only [Client.GetSecret, hfault, hS]
  rw [goM_bind_eq, hissue1]
  simp only []
  rw [goM_bind_eq, hcous]
  refine ⟨tmpl, updated, wr, _, rfl, ?_, hmeta, hcrt, hkeyd, ht1, hdur, ?_⟩
  · rw [hrsec, hkeyed]
    exact assocSet_lookup _ _ _
  · rw [hrcalls]
    simp only [hicalls']
    simp

/-! ## The theorems at concrete inputs -/

/-- C1 at a certificate with exactly 30 days left and the requested name: the hypotheses
hold and the check asks for no renewal. -/
theorem isSecretDataEqual_renewal_iff_witness :
    demoSecret.Data.get TLSCertKey = some (45 :: demoDer) ∧
    (∃ same w1, isSecretDataEqual (demoEnv (demoNow + 60 * (24 * time.Hour))) demoRequest
        demoSecret emptyWorld = Outcome.done same w1 ∧ same = true) := by
  refine ⟨by decide, ?_⟩
  obtain ⟨same, w1, hrun, _, h30, _, _, _⟩ :=
    isSecretDataEqual_renewal_iff (demoEnv (demoNow + 60 * (24 * time.Hour))) demoRequest
      demoSecret emptyWorld (45 :: demoDer) { Type' := "CERTIFICATE", Bytes := demoDer }
      demoCert
      (by decide) (by decide) (by decide)
  exact ⟨same, w1, hrun, h30 (by decide) (by decide)⟩

/-- C2 at a fresh request, stored, without the token and not terminating. -/
theorem HandleFinalizer_gate_witness :
    demoWorld0.certificates.lookup demoRequest.key = some demoRequest ∧
    (∃ config1 w1, HandleFinalizer (demoEnv demoNow) demoRequest demoWorld0
        = Outcome.done (config1, false, none) w1 ∧
      finalizerName ∈ config1.ObjectMeta.Finalizers) := by
  refine ⟨by decide, ?_⟩
  obtain ⟨config1, finished, w1, hrun, hfin, htoken, _⟩ :=
    HandleFinalizer_gate (demoEnv demoNow) demoRequest demoRequest demoWorld0
      (by decide) (by decide)
  have hf : finished = false := by
    cases finished with
    | false => rfl
    | true => exact absurd (hfin.mp rfl) (by decide)
  subst hf
  exact ⟨config1, w1, hrun, htoken.mpr (by decide)⟩

/-- C3 as stated fails at 106752 days: the product leaves the int64 range and the code
returns a negative duration. -/
theorem parseCustomDuration_days_overflow :
    toString 106752 ++ "d" = "106752d" ∧
    parseCustomDuration demoFrac "106752d" = Except.ok (-9223371273709551616) ∧
    parseCustomDuration demoFrac "106752d" ≠ Except.ok ((106752 : Int) * (24 * time.Hour)) := by
  decide

/-- C3 (amended) at 30 days. -/
theorem parseCustomDuration_days_witness :
    30 ≤ 106751 ∧
    parseCustomDuration demoFrac "30d" = Except.ok (720 * time.Hour) := by
  refine ⟨by decide, ?_⟩
  have h := (parseCustomDuration_days demoFrac 30 (by decide)).1
  have h1 : toString 30 ++ "d" = "30d" := by decide
  have h2 : ((30 : Nat) : Int) * (24 * time.Hour) = 720 * time.Hour := by decide
  rw [h1, h2] at h
  exact h

/-- C4 as stated fails at a day count beyond the int64 range: the text is a bare day count
followed by "d", and the parser rejects it. -/
theorem parseCustomDuration_fails_on_day_count :
    isDayCountText "9223372036854775808d" ∧
    parseFails demoFrac "9223372036854775808d" ∧
    ¬ (parseFails demoFrac "9223372036854775808d" ↔
        (¬ isDayCountText "9223372036854775808d" ∧
          ¬ isStandardDuration demoFrac "9223372036854775808d")) := by
  have hday : isDayCountText "9223372036854775808d" :=
    ⟨"9223372036854775808", by decide, 9223372036854775808, by decide⟩
  have hfail : parseFails demoFrac "9223372036854775808d" :=
    ⟨errors.New ("strconv.Atoi: parsing " ++ quote "9223372036854775808"
      ++ ": value out of range"), by decide⟩
  exact ⟨hday, hfail, fun h => (h.mp hfail).1 hday⟩

/-- C4 (amended) at "3d" and at "72h". -/
theorem parseCustomDuration_fails_iff_witness :
    ¬ parseFails demoFrac "3d" ∧ ¬ parseFails demoFrac "72h" := by
  constructor
  · intro h
    exact ((parseCustomDuration_fails_iff demoFrac "3d").1.mp h).1
      ⟨"3", by decide, 3, by decide, by decide, by decide⟩
  · intro h
    exact ((parseCustomDuration_fails_iff demoFrac "72h").1.mp h).2
      ⟨72 * time.Hour, by decide⟩

/-- C6 at "90d" and at a validity that does not parse. -/
theorem certificateTemplate_contract_witness :
    (∃ tmpl w1, certificateTemplate (demoEnv demoNow) demoRequest emptyWorld
        = Outcome.done (Except.ok tmpl) w1 ∧
      tmpl.Subject.CommonName = "a.example.com" ∧ tmpl.DNSNames = ["a.example.com"] ∧
      tmpl.NotAfter - tmpl.NotBefore = 90 * (24 * time.Hour)) ∧
    (∃ e1 w1, certificateTemplate (demoEnv demoNow)
        { demoRequest with Spec := { demoRequest.Spec with Validity := "notaduration" } }
        emptyWorld = Outcome.done (Except.error e1) w1) := by
  constructor
  · obtain ⟨tmpl, w1, hrun, hcn, hsan, _, hdur⟩ :=
      (certificateTemplate_contract (demoEnv demoNow) demoRequest emptyWorld).1
        (90 * (24 * time.Hour)) 1 (by decide) (by decide)
    exact ⟨tmpl, w1, hrun, hcn, hsan, hdur⟩
  · exact (certificateTemplate_contract (demoEnv demoNow)
      { demoRequest with Spec := { demoRequest.Spec with Validity := "notaduration" } }
      emptyWorld).2 (time.invalidDuration "notaduration") (by decide)

/-- C8 as stated fails: the request names namespace "team-b" in its credential reference,
and the pass looks the Credential up in the request's own namespace "team-a". -/
theorem secretRef_namespace_not_used :
    demoRequest.Spec.SecretRef.Namespace = "team-b" ∧
    Call.GetSecret { Namespace := "team-a", Name := "web-tls" } ∈ demoWorld1.calls ∧
    Call.secretKey (Call.GetSecret { Namespace := "team-a", Name := "web-tls" })
      ≠ some { Namespace := demoRequest.Spec.SecretRef.Namespace,
               Name := demoRequest.Spec.SecretRef.Name } := by
  decide

/-- C8 (amended) at the stored request of the examples. -/
theorem Reconcile_secret_calls_keyed_witness :
    demoWorld0.certificates.lookup demoRequest.key = some demoRequest ∧
    (∃ l, (Reconcile (demoEnv demoNow) demoRequest.key demoWorld0).world.calls
        = demoWorld0.calls ++ l ∧
      ∀ call ∈ l, ∀ k, call.secretKey = some k →
        k = { Name := "web-tls", Namespace := "team-a" }) :=
  ⟨by decide,
    Reconcile_secret_calls_keyed (demoEnv demoNow) demoRequest.key demoWorld0 demoRequest
      (by intro k s h; simp [demoWorld0, emptyWorld] at h) (by decide)⟩

/-- C9 at a request whose validity does not parse: the issue step fails, and the pass
returns that error after one status update that carries the condition. -/
theorem Reconcile_reports_issue_failure_witness :
    certificateManager (demoEnv demoNow)
        (controllerutil.AddFinalizer demoBadRequest finalizerName) emptySecret demoWorldBadGated
      = Outcome.done (emptySecret, some demoBadError) demoWorldBadManaged ∧
    (∃ c2 w4 cond,
      Reconcile (demoEnv demoNow) demoRequest.key demoWorldBad
        = Outcome.done (some demoBadError) w4 ∧
      w4.calls = demoWorldBadManaged.calls ++ [Call.UpdateCertificateStatus c2] ∧
      meta.FindStatusCondition c2.Status.Conditions TypeReconcileError = some cond ∧
      cond.Status = ConditionStatus.ConditionTrue ∧
      cond.Message = demoBadError.msg) := by
  have hman : certificateManager (demoEnv demoNow)
        (controllerutil.AddFinalizer demoBadRequest finalizerName) emptySecret demoWorldBadGated
      = Outcome.done (emptySecret, some demoBadError) demoWorldBadManaged := by decide
  refine ⟨hman, ?_⟩
  obtain ⟨c2, w4, cond, hrun, hcalls, _, _, _, hfind, hst, _, hmsg⟩ :=
    Reconcile_reports_issue_failure (demoEnv demoNow) demoRequest.key demoWorldBad
      demoWorldBadFetched demoWorldBadGated demoWorldBadManaged demoBadRequest
      (controllerutil.AddFinalizer demoBadRequest finalizerName) emptySecret demoBadError
      (by decide) (by decide) hman
  exact ⟨c2, w4, cond, hrun, hcalls, hfind, hst, hmsg⟩

/-- C7 at a Credential without data: the renewal check asks for renewal and the issue step
panics at the write into the nil data map instead of updating the Credential. -/
theorem certificateManager_panics_on_nil_data :
    demoWorldBare.secrets.lookup (secretKey demoRequest) = some demoBareSecret ∧
    demoBareSecret.Data = none ∧
    (isSecretDataEqual (demoEnv demoNow) demoRequest demoBareSecret demoWorldBare
      = Outcome.done false demoWorldBare) ∧
    (∃ w, certificateManager (demoEnv demoNow) demoRequest emptySecret demoWorldBare
      = Outcome.panic "assignment to entry in nil map" w ∧
      w.secrets = demoWorldBare.secrets ∧
      ∀ c ∈ w.calls, c.isSecretWrite = false) := by
  refine ⟨by decide, by decide, by decide, ?_⟩
  exact ⟨(certificateManager (demoEnv demoNow) demoRequest emptySecret demoWorldBare).world,
    by decide, by decide, by decide⟩

/-- C10 at a Credential without data: the whole reconcile pass panics. -/
theorem Reconcile_panics_on_nil_data :
    ∃ w, Reconcile (demoEnv demoNow) demoRequest.key demoWorldBare
      = Outcome.panic "assignment to entry in nil map" w :=
  ⟨(Reconcile (demoEnv demoNow) demoRequest.key demoWorldBare).world, by decide⟩

/-- C5 at the request of the examples: the first pass creates the Credential, and a pass 59
days later (31 days before the expiry) reads it and writes nothing. -/
theorem Reconcile_idempotent_witness :
    demoWorld0.secrets.lookup (secretKey demoRequest) = none ∧
    Reconcile (demoEnv demoNow) demoRequest.key demoWorld0 = Outcome.done none demoWorld1 ∧
    (∃ created, demoWorld1.secrets = [(secretKey demoRequest, created)]) ∧
    (∃ r w3 l2,
      Reconcile (demoEnv (demoNow + 59 * (24 * time.Hour))) demoRequest.key demoWorld1
        = Outcome.done r w3 ∧
      w3.secrets = demoWorld1.secrets ∧ w3.calls = demoWorld1.calls ++ l2 ∧
      ∀ c ∈ l2, c.isSecretWrite = false) := by
  obtain ⟨w1, created, tmpl, l1, hrun, hsec, _, hdata, hcn, _, _, _, _, hpass2⟩ :=
    Reconcile_idempotent (demoEnv demoNow) (demoEnv (demoNow + 59 * (24 * time.Hour)))
      demoRequest.key demoRequest demoWorld0 (90 * (24 * time.Hour))
      { PublicKey := { N := 3233, E := 17 }, D := 413 } 2 demoSign
      (by decide) (by decide) (by decide) (by decide) (by decide) (fun _ => rfl) (by decide)
      (by decide) (fun _ => rfl)
  have hw1 : w1 = demoWorld1 := by
    have h : (Reconcile (demoEnv demoNow) demoRequest.key demoWorld0).world = w1 := by
      rw [hrun]
      rfl
    exact h.symm
  subst hw1
  have hcreated : created = demoCreated := by
    have h1 : demoWorld1.secrets.lookup (secretKey demoRequest) = some created := by
      rw [hsec]
      simp [demoWorld0, emptyWorld, List.lookup]
    have h2 : demoWorld1.secrets.lookup (secretKey demoRequest) = some demoCreated := by
      decide
    rw [h1] at h2
    injection h2
  have hsign : demoSign tmpl = demoDer := by
    have h1 : created.Data.get TLSCertKey = some (45 :: demoSign tmpl) := by
      rw [hdata]
      rfl
    have h3 : demoCreated.Data.get TLSCertKey = some (45 :: demoDer) := by decide
    rw [hcreated, h3] at h1
    injection h1 with h1
    injection h1 with _ h1
    exact h1.symm
  refine ⟨by decide, hrun, ⟨created, by rw [hsec]; rfl⟩, ?_⟩
  refine hpass2 demoWorld1 { Type' := "CERTIFICATE", Bytes := demoDer } demoCert
    rfl ?_ (fun _ => rfl) ?_ (by decide) ?_ ?_
  · intro c2 hc2
    have h : demoWorld1.certificates.lookup demoRequest.key = some demoStored := by decide
    rw [hc2] at h
    injection h with h
    rw [h]
    decide
  · show demoDecode (45 :: demoSign tmpl) = _
    rw [hsign]
    rfl
  · rw [hcn]
    decide
  · intro k
    exact (by decide :
      30 * (24 * time.Hour) ≤ demoCert.NotAfter - (demoNow + 59 * (24 * time.Hour)))

end CertOperator
